import Mathlib

/-!
Verification development for `menpofit/sdm/fitter.py`
(`SupervisedDescentFitter._train` and its callers).

The imperative training orchestrator is shallowly embedded as pure Lean
functions.  Images are finite association lists of keyed landmark groups
together with an identity tag (`iid`) standing for the Python object
identity.  All external collaborators (reference-shape computation,
rescaling, feature extraction, image scaling, shape alignment and the
per-scale cascade-stage `train` / `increment` routines) are parameters
collected in a `Collab` structure; the perturbation strategy and the
per-scale configuration live in `SDMConfig`.  Every observable action of
the orchestrator (warnings, landmark writes, perturbation-strategy calls,
feature extraction, image scaling, stage invocations and the cross-scale
shape transform) is recorded in an event trace (`Ev`), so that temporal
and counting properties of the spec can be stated about the trace.
-/

namespace MenpofitSDM

/-- A 2-D point with exact rational coordinates. -/
abbrev Pt : Type := ℚ × ℚ

/-- A shape: an ordered sequence of 2-D landmark coordinates. -/
abbrev Shape : Type := List Pt

/-- An image: an object identity tag plus the keyed landmark groups stored
on it, in insertion order (Python dicts preserve insertion order). -/
structure Image where
  iid : ℕ
  landmarks : List (String × Shape)
deriving DecidableEq

instance : Inhabited Image := ⟨⟨0, []⟩⟩

/-- Lookup of a landmark group by key (`i.landmarks[k].lms`); the first
binding of the key wins, a missing key yields the empty shape. -/
def lookupLm (i : Image) (k : String) : Shape :=
  ((i.landmarks.find? (fun p => p.1 == k)).map Prod.snd).getD []

/-- Whether a key is present among the image's landmark groups. -/
def hasKey (i : Image) (k : String) : Bool :=
  i.landmarks.any (fun p => p.1 == k)

/-- Landmark assignment `i.landmarks[k] = s`: replace the binding in place
if the key exists, otherwise append it (Python dict assignment). -/
def setLm (i : Image) (k : String) (s : Shape) : Image :=
  if hasKey i k then
    ⟨i.iid, i.landmarks.map (fun p => if p.1 == k then (k, s) else p)⟩
  else
    ⟨i.iid, i.landmarks ++ [(k, s)]⟩

/-- Containment of `p` as a contiguous infix of `s` (character lists). -/
def charsInfix (p : List Char) : List Char → Bool
  | [] => p.isEmpty
  | c :: t => p.isPrefixOf (c :: t) || charsInfix p t

/-- Substring containment on strings, modelling the glob
`'*{pat}*'` used by `landmarks.keys_matching`. -/
def strContains (pat s : String) : Bool :=
  charsInfix pat.toList s.toList

/-- The keys of the image's landmark groups, in stored order
(`landmarks.group_labels` / dict keys). -/
def groupLabels (i : Image) : List String :=
  i.landmarks.map Prod.fst

/-- Modelled from the spec: `landmarks.keys_matching('*{pat}*')` (menpo
collaborator, §6 "supports wildcard lookup of all keys matching a
namespace"): the stored keys containing `pat` as a substring, in order. -/
def keysMatching (i : Image) (pat : String) : List String :=
  (groupLabels i).filter (fun k => strContains pat k)

/-- Modelled from the spec: `shape.bounding_box()` (menpo collaborator,
§3 data model "BoundingBox: 4-corner (or min/max) 2D region; derived from
a ground-truth shape"): the four corners spanned by the coordinate-wise
minima and maxima of the shape's points. -/
def boundingBox (s : Shape) : Shape :=
  let xs := s.map Prod.fst
  let ys := s.map Prod.snd
  let x0 := xs.foldl min (xs.headD 0)
  let x1 := xs.foldl max (xs.headD 0)
  let y0 := ys.foldl min (ys.headD 0)
  let y1 := ys.foldl max (ys.headD 0)
  [(x0, y0), (x1, y0), (x1, y1), (x0, y1)]

/-- Observable events of one `_train` run, in program order.  `attach i k`
records the landmark write `image(iid = i).landmarks[k] = ...`; the two
`warn...` events are the two `warnings.warn` calls; `perturbCall gt bb`
records an invocation of the pluggable perturbation strategy with its two
arguments; `computeFeaturesEv` / `scaleImagesEv` record the collaborator
calls of the feature pipeline; `stageTrain j` / `stageIncrement j` record
the cascade-stage invocation at scale `j`; `applyScaleTransform j r`
records the in-place shape transform after scale `j` with ratio `r`. -/
inductive Ev where
  | warnRefShape : Ev
  | computeRef : Ev
  | attach (iid : ℕ) (key : String) : Ev
  | warnNPerturb (old new : ℕ) : Ev
  | perturbCall (gt bb : Shape) : Ev
  | computeFeaturesEv (fid : ℕ) : Ev
  | scaleImagesEv (s : ℚ) : Ev
  | stageTrain (j : ℕ) : Ev
  | stageIncrement (j : ℕ) : Ev
  | applyScaleTransform (j : ℕ) (ratio : ℚ) : Ev
deriving DecidableEq

/-- A per-scale holistic feature function together with an identity tag
`fid` standing for Python object identity: `features[j] is features[j-1]`
is modelled as equality of the tags. -/
structure FeatureFn where
  fid : ℕ
  apply : List Image → List Image

instance : Inhabited FeatureFn := ⟨⟨0, id⟩⟩

/-- The external collaborators of the orchestrator (spec §6), abstract:
`computeReferenceShape` (menpofit.builder.compute_reference_shape),
`rescaleImages` (menpofit.builder.rescale_images_to_reference_shape),
`scaleImages` (menpofit.builder.scale_images),
`alignShapeWithBoundingBox` (menpofit.fitter.align_shape_with_bounding_box)
and the per-scale cascade-stage `train` / `increment` routines with stage
state of type `σ`. -/
structure Collab (σ : Type) where
  computeReferenceShape : List Shape → Option ℚ → Shape
  rescaleImages : List Image → String → Shape → List Image
  scaleImages : List Image → ℚ → List Image
  alignShapeWithBoundingBox : Shape → Shape → Shape
  trainAlg : σ → List Image → List Shape → List (List Shape) → σ × List (List Shape)
  incrementAlg : σ → List Image → List Shape → List (List Shape) → σ × List (List Shape)

/-- The construction-time configuration of a `SupervisedDescentFitter`
(after the `checks.*` validation): per-scale factors, per-scale holistic
feature functions, the diagonal normalization length, the pluggable
perturbation strategy `_perturb_from_bounding_box`, and the collaborator
bundle. -/
structure SDMConfig (σ : Type) where
  scales : List ℚ
  features : List FeatureFn
  diagonal : Option ℚ
  perturbFromBoundingBox : Shape → Shape → Shape
  collab : Collab σ

/-- The mutable state of a `SupervisedDescentFitter` that `_train` reads
and writes: `self.reference_shape`, `self.n_perturbations` and
`self.algorithms` (one stage state per scale). -/
structure SDMState (σ : Type) where
  referenceShape : Option Shape
  nPerturbations : ℕ
  algorithms : List σ

/-- Resolution of the landmark-group argument (fitter.py lines 89-90):
if `group is None`, the first group label of the first image of the batch
is used. -/
def resolveGroup (group : Option String) (batch : List Image) : String :=
  match group with
  | some g => g
  | none => ((batch.headD default).landmarks.headD ("", [])).1

/-- The reserved bounding-box key namespace (fitter.py line 115). -/
def gtBbNamespace : String := "__gt_bb_"

/-- Attachment of the ground-truth bounding box under the reserved key
(fitter.py lines 116-119): `i.landmarks['__gt_bb_0'] = gt_s.bounding_box()`. -/
def attachGtBox (group : String) (i : Image) : Image :=
  setLm i (gtBbNamespace ++ "0") (boundingBox (lookupLm i group))

/-- The ground-truth bounding-box pass over a batch (fitter.py lines
111-119), returning the written images and the write events. -/
def gtBoxStep (group : String) (batch : List Image) : List Image × List Ev :=
  (batch.map (attachGtBox group),
   batch.map (fun i => Ev.attach i.iid (gtBbNamespace ++ "0")))

/-- Resolution of the bounding-box namespace (fitter.py lines 110-121):
with no supplied group the reserved namespace is used and ground-truth
boxes are attached; otherwise the supplied group is used unchanged. -/
def resolveBBGroup (bbGroup : Option String) (group : String)
    (working : List Image) : String × List Image × List Ev :=
  match bbGroup with
  | none => (gtBbNamespace, (gtBoxStep group working).1, (gtBoxStep group working).2)
  | some g => (g, working, [])

/-- One iteration `j` of the perturbation loop (fitter.py lines 140-147):
recompute the ground-truth bounding box and the seed box from the current
image, call the pluggable strategy, and attach the result under
`'{bb_group}_{j}'`. -/
def perturbStepJ (perturbFn : Shape → Shape → Shape) (group seedKey bbGroup : String)
    (acc : Image × List Ev) (j : ℕ) : Image × List Ev :=
  let gt := boundingBox (lookupLm acc.1 group)
  let bb := lookupLm acc.1 seedKey
  let p := perturbFn gt bb
  let key := bbGroup ++ "_" ++ toString j
  (setLm acc.1 key p,
   acc.2 ++ [Ev.perturbCall gt bb, Ev.attach acc.1.iid key])

/-- The perturbation loop for one image (fitter.py lines 136-147):
`for j in range(1, self.n_perturbations)`. -/
def perturbImage (perturbFn : Shape → Shape → Shape) (nPert : ℕ)
    (group seedKey bbGroup : String) (i : Image) : Image × List Ev :=
  (List.range' 1 (nPert - 1)).foldl (perturbStepJ perturbFn group seedKey bbGroup) (i, [])

/-- The bounding-box count reconciliation (fitter.py lines 129-154): with
exactly one box per image, `n_perturbations - 1` further boxes are
synthesized per image via the strategy; with a differing count a warning
is recorded and `self.n_perturbations` is overwritten; otherwise nothing
happens. -/
def resolvePerturbations {σ : Type} (perturbFn : Shape → Shape → Shape)
    (S : SDMState σ) (group bbGroup : String) (allBbKeys : List String)
    (working : List Image) : SDMState σ × List Image × List Ev :=
  if allBbKeys.length = 1 then
    let rs := working.map (perturbImage perturbFn S.nPerturbations group
      (allBbKeys.headD "") bbGroup)
    (S, rs.map Prod.fst, (rs.map Prod.snd).flatten)
  else if allBbKeys.length ≠ S.nPerturbations then
    ({S with nPerturbations := allBbKeys.length}, working,
     [Ev.warnNPerturb S.nPerturbations allBbKeys.length])
  else
    (S, working, [])

/-- The configured feature function at scale `j` (`self.features[j]`). -/
def featuresAt {σ : Type} (cfg : SDMConfig σ) (j : ℕ) : FeatureFn :=
  cfg.features.getD j default

/-- The configured scale factor at scale `j` (`self.scales[j]`). -/
def scaleAt {σ : Type} (cfg : SDMConfig σ) (j : ℕ) : ℚ :=
  cfg.scales.getD j 1

/-- The feature-recomputation guard (fitter.py line 173):
`j == 0 or self.features[j] is not self.features[j - 1]`, with Python
object identity modelled by the `fid` tags. -/
def recompute {σ : Type} (cfg : SDMConfig σ) (j : ℕ) : Bool :=
  j == 0 || (featuresAt cfg j).fid != (featuresAt cfg (j - 1)).fid

/-- The feature images available at scale `j` (fitter.py lines 172-180):
recomputed from the working batch when the guard fires, otherwise the
ones carried over from the previous scale. -/
def featImgsAt {σ : Type} (cfg : SDMConfig σ) (batch : List Image) (j : ℕ)
    (prev : List Image) : List Image :=
  if recompute cfg j then (featuresAt cfg j).apply batch else prev

/-- The scaled images at scale `j` (fitter.py lines 181-188): scaling is
skipped when the factor is 1. -/
def scaledAt {σ : Type} (cfg : SDMConfig σ) (batch : List Image) (j : ℕ)
    (prev : List Image) : List Image :=
  let fi := featImgsAt cfg batch j prev
  if scaleAt cfg j ≠ 1 then cfg.collab.scaleImages fi (scaleAt cfg j) else fi

/-- The initial shape estimates seeded from the bounding boxes at the
bottom scale (fitter.py lines 199-207): for each image, one alignment of
the reference shape to each stored bounding box, in key order. -/
def seedShapes {σ : Type} (C : Collab σ) (ref : Shape) (allBbKeys : List String)
    (scaled : List Image) : List (List Shape) :=
  scaled.map (fun i => allBbKeys.map
    (fun k => C.alignShapeWithBoundingBox ref (lookupLm i k)))

/-- The shape estimates handed to the cascade stage at scale `j`
(fitter.py lines 193-207): seeded from the bounding boxes at `j = 0`,
carried over unchanged otherwise. -/
def curSeededAt {σ : Type} (C : Collab σ) (ref : Shape) (allBbKeys : List String)
    (j : ℕ) (scaled : List Image) (cur : List (List Shape)) : List (List Shape) :=
  if j = 0 then cur ++ seedShapes C ref allBbKeys scaled else cur

/-- The cascade-stage invocation (fitter.py lines 209-217):
`train` when not incrementing, `increment` otherwise. -/
def stageCall {σ : Type} (C : Collab σ) (increment : Bool) (alg : σ)
    (imgs : List Image) (shps : List Shape) (cur : List (List Shape)) :
    σ × List (List Shape) :=
  if increment then C.incrementAlg alg imgs shps cur
  else C.trainAlg alg imgs shps cur

/-- The full stage invocation at scale `j`, assembled from the pieces
above (the body of fitter.py lines 209-217 with its inputs). -/
def stageAt {σ : Type} [Inhabited σ] (cfg : SDMConfig σ) (group : String)
    (allBbKeys : List String) (ref : Shape) (increment : Bool)
    (batch : List Image) (j : ℕ) (prev : List Image) (algs : List σ)
    (cur : List (List Shape)) : σ × List (List Shape) :=
  let scaled := scaledAt cfg batch j prev
  stageCall cfg.collab increment (algs.getD j default) scaled
    (scaled.map (fun i => lookupLm i group))
    (curSeededAt cfg.collab ref allBbKeys j scaled cur)

/-- An isotropic 2-D scale transform with ratio `r` applied to a shape
(menpo `Scale(r, n_dims=2).apply_inplace`): both coordinates of every
point are multiplied by `r`. -/
def scaleShape (r : ℚ) (s : Shape) : Shape :=
  s.map (fun p => (r * p.1, r * p.2))

/-- The output of one iteration of the scale loop. -/
structure StepOut (σ : Type) where
  featImgs : List Image
  algs : List σ
  cur : List (List Shape)
  seeded : List (List Shape)
  trace : List Ev

/-- One iteration `j` of the scale loop (fitter.py lines 163-226):
feature handling, scale handling, seeding at the bottom scale, the stage
invocation, and the cross-scale shape transform for non-final scales.
`seeded` records the estimates handed to the stage at this scale. -/
def scaleStep {σ : Type} [Inhabited σ] (cfg : SDMConfig σ) (group : String)
    (allBbKeys : List String) (ref : Shape) (increment : Bool)
    (batch : List Image) (j : ℕ) (prev : List Image) (algs : List σ)
    (cur : List (List Shape)) : StepOut σ :=
  let fi := featImgsAt cfg batch j prev
  let ev1 : List Ev :=
    if recompute cfg j then [Ev.computeFeaturesEv (featuresAt cfg j).fid] else []
  let ev2 : List Ev :=
    if scaleAt cfg j ≠ 1 then [Ev.scaleImagesEv (scaleAt cfg j)] else []
  let st := stageAt cfg group allBbKeys ref increment batch j prev algs cur
  let ev3 : List Ev := [if increment then Ev.stageIncrement j else Ev.stageTrain j]
  let ratio := scaleAt cfg (j + 1) / scaleAt cfg j
  let curOut :=
    if j ≠ cfg.scales.length - 1 then
      st.2.map (fun cs => cs.map (scaleShape ratio))
    else st.2
  let ev4 : List Ev :=
    if j ≠ cfg.scales.length - 1 then [Ev.applyScaleTransform j ratio] else []
  ⟨fi, algs.set j st.1,
   curOut,
   curSeededAt cfg.collab ref allBbKeys j (scaledAt cfg batch j prev) cur,
   ev1 ++ ev2 ++ ev3 ++ ev4⟩

/-- The accumulated output of the scale loop: final stage states, final
shape estimates, the per-scale estimates handed to each stage, and the
trace. -/
structure LoopOut (σ : Type) where
  algs : List σ
  cur : List (List Shape)
  traj : List (List (List Shape))
  trace : List Ev

/-- The scale loop from index `j` with `fuel` remaining iterations
(fitter.py lines 161-226; called with `j = 0` and
`fuel = self.n_scales`). -/
def scaleLoopFrom {σ : Type} [Inhabited σ] (cfg : SDMConfig σ) (group : String)
    (allBbKeys : List String) (ref : Shape) (increment : Bool)
    (batch : List Image) : ℕ → ℕ → List Image → List σ → List (List Shape) →
    LoopOut σ
  | 0, _, _, algs, cur => ⟨algs, cur, [], []⟩
  | fuel + 1, j, prev, algs, cur =>
    let s := scaleStep cfg group allBbKeys ref increment batch j prev algs cur
    let r := scaleLoopFrom cfg group allBbKeys ref increment batch fuel (j + 1)
      s.featImgs s.algs s.cur
    ⟨r.algs, r.cur, s.seeded :: r.traj, s.trace ++ r.trace⟩

/-- The reference shape used by a batch (fitter.py lines 92-103): the
stored one if present, else the collaborator statistic over the batch's
raw (pre-rescale) ground-truth shapes with the diagonal parameter. -/
def resolvedRef {σ : Type} (cfg : SDMConfig σ) (S : SDMState σ) (group : String)
    (batch : List Image) : Shape :=
  match S.referenceShape with
  | some r => r
  | none => cfg.collab.computeReferenceShape
      (batch.map (fun i => lookupLm i group)) cfg.diagonal

/-- The trace of the reference-shape bootstrap (fitter.py lines 92-103):
nothing when a reference shape exists; otherwise a `computeRef` event,
preceded by the streaming-caveat warning exactly when `batch_size` is
set. -/
def refTrace {σ : Type} (S : SDMState σ) (batchSize : Option ℕ) : List Ev :=
  match S.referenceShape with
  | some _ => []
  | none => (if batchSize ≠ none then [Ev.warnRefShape] else []) ++ [Ev.computeRef]

/-- The resolved bounding-box namespace of a call (fitter.py lines
110-121). -/
def bbGroupName (bb0 : Option String) : String := bb0.getD gtBbNamespace

lemma resolveBBGroup_fst (bb0 : Option String) (g : String) (w : List Image) :
    (resolveBBGroup bb0 g w).1 = bbGroupName bb0 := by
  cases bb0 <;> rfl

/-- The working batch of one `_train` iteration after rescaling and
bounding-box resolution, as recomputed by `processBatch` (fitter.py lines
105-121). -/
def batchWorking1 {σ : Type} (cfg : SDMConfig σ) (S : SDMState σ)
    (g0 bb0 : Option String) (batch : List Image) : List Image :=
  (resolveBBGroup bb0 (resolveGroup g0 batch)
    (cfg.collab.rescaleImages batch (resolveGroup g0 batch)
      (resolvedRef cfg S (resolveGroup g0 batch) batch))).2.1

/-- The bounding-box keys found on the first working image of a batch
(fitter.py lines 123-127). -/
def batchBBKeys {σ : Type} (cfg : SDMConfig σ) (S : SDMState σ)
    (g0 bb0 : Option String) (batch : List Image) : List String :=
  keysMatching ((batchWorking1 cfg S g0 bb0 batch).headD default) (bbGroupName bb0)

/-- The output of processing one batch. -/
structure BatchOut (σ : Type) where
  state : SDMState σ
  group : String
  working : List Image
  cur : List (List Shape)
  traj : List (List (List Shape))
  trace : List Ev

/-- The body of the batch loop of `_train` (fitter.py lines 86-226):
group resolution, reference-shape bootstrap, rescale to the reference
shape, bounding-box resolution, perturbation reconciliation, and the
scale loop.  `working` is the post-rescale working batch after all
landmark writes; `traj` records the estimates handed to each scale's
stage. -/
def processBatch {σ : Type} [Inhabited σ] (cfg : SDMConfig σ) (S : SDMState σ)
    (group0 bbGroup0 : Option String) (batchSize : Option ℕ) (increment : Bool)
    (batch : List Image) : BatchOut σ :=
  let group := resolveGroup group0 batch
  let ref := resolvedRef cfg S group batch
  let ev0 := refTrace S batchSize
  let S1 : SDMState σ := {S with referenceShape := some ref}
  let working0 := cfg.collab.rescaleImages batch group ref
  let bbGroup := bbGroupName bbGroup0
  let working1 := batchWorking1 cfg S group0 bbGroup0 batch
  let ev1 := (resolveBBGroup bbGroup0 group working0).2.2
  let allBbKeys := batchBBKeys cfg S group0 bbGroup0 batch
  let rp := resolvePerturbations cfg.perturbFromBoundingBox S1 group bbGroup
    allBbKeys working1
  let S2 := rp.1
  let working2 := rp.2.1
  let ev2 := rp.2.2
  let allBbKeys2 := keysMatching (working2.headD default) bbGroup
  let lo := scaleLoopFrom cfg group allBbKeys2 ref increment working2
    cfg.scales.length 0 working2 S2.algorithms []
  ⟨{S2 with algorithms := lo.algs}, group, working2, lo.cur, lo.traj,
   ev0 ++ ev1 ++ ev2 ++ lo.trace⟩

/-- The output of a whole `_train` run: the final fitter state and one
trace per processed batch, in order. -/
structure RunOut (σ : Type) where
  state : SDMState σ
  batchTraces : List (List Ev)

/-- The batch loop of `_train` (fitter.py lines 78-81): the first batch
runs with the caller's `increment` flag, every later batch with the flag
forced to true; the resolved group of a batch is reused for the next. -/
def trainLoop {σ : Type} [Inhabited σ] (cfg : SDMConfig σ) (bbGroup0 : Option String)
    (batchSize : Option ℕ) : SDMState σ → Option String → Bool →
    List (List Image) → RunOut σ
  | S, _, _, [] => ⟨S, []⟩
  | S, group0, inc, b :: bs =>
    let o := processBatch cfg S group0 bbGroup0 batchSize inc b
    let r := trainLoop cfg bbGroup0 batchSize o.state (some o.group) true bs
    ⟨r.state, o.trace :: r.batchTraces⟩

/-- Modelled from the spec: `menpofit.base.batch` (not under `src/`;
§4.1 "consumed lazily in fixed-size chunks"): the list split into
consecutive chunks of size `n`, the last possibly shorter; `n = 0`
produces no batches. -/
def toBatchesAux {α : Type} (n : ℕ) : List α → ℕ → List (List α)
  | [], _ => []
  | _ :: _, 0 => []
  | x :: t, fuel + 1 =>
    if n = 0 then [] else (x :: t).take n :: toBatchesAux n ((x :: t).drop n) fuel

/-- Chunking entry point: the fuel `xs.length` always suffices, since a
nonempty list shrinks by at least one element per chunk. -/
def toBatches {α : Type} (n : ℕ) (xs : List α) : List (List α) :=
  toBatchesAux n xs xs.length

/-- The batch partition of `_train` (fitter.py lines 69-76): lazy
fixed-size chunks when `batch_size` is set, otherwise one materialized
batch. -/
def runBatches (images : List Image) (batchSize : Option ℕ) : List (List Image) :=
  match batchSize with
  | some n => toBatches n images
  | none => [images]

/-- The full `_train` batching step composed with the batch loop. -/
def SDMtrain {σ : Type} [Inhabited σ] (cfg : SDMConfig σ) (S : SDMState σ)
    (images : List Image) (group0 bbGroup0 : Option String) (increment : Bool)
    (batchSize : Option ℕ) : RunOut σ :=
  trainLoop cfg bbGroup0 batchSize S group0 increment (runBatches images batchSize)

/-- The public `increment` method (fitter.py lines 228-233): `_train`
with `increment=True`. -/
def SDMincrement {σ : Type} [Inhabited σ] (cfg : SDMConfig σ) (S : SDMState σ)
    (images : List Image) (group0 bbGroup0 : Option String)
    (batchSize : Option ℕ) : RunOut σ :=
  SDMtrain cfg S images group0 bbGroup0 true batchSize

/-- Modelled from the spec: `rescale_images_to_reference_shape`
(menpofit.builder, not under `src/`).  Per §6 it returns
scale-normalized images, and per §3/§5 per-batch image data is transient
working data ("no batch's image/shape data outlives its own processing
iteration"), so rescaling yields fresh working images: identity tags
`base, base+1, ...` distinct from the caller's, with every landmark group
normalized against the reference shape by `norm`. -/
def rescaleSpec (base : ℕ) (norm : Shape → Shape → Shape) (imgs : List Image)
    (_group : String) (ref : Shape) : List Image :=
  ((List.range imgs.length).zip imgs).map
    (fun p => ⟨base + p.1, p.2.landmarks.map (fun q => (q.1, norm ref q.2))⟩)

/-- A trivial cascade stage used for concrete instantiations: the state is
unchanged and the estimates are returned as received. -/
def algTriv : Unit → List Image → List Shape → List (List Shape) →
    Unit × List (List Shape) :=
  fun _ _ _ c => ((), c)

/-- A concrete collaborator bundle for witnesses and counterexamples:
spec-modelled rescaling with fresh identities from 100, identity image
scaling, head-statistic reference shape, and alignment that returns the
bounding box itself. -/
def collabTriv : Collab Unit :=
  ⟨fun shapes _ => shapes.headD [],
   rescaleSpec 100 (fun _ s => s),
   fun l _ => l,
   fun _ bb => bb,
   algTriv, algTriv⟩

/-- A one-scale concrete configuration with a perturbation strategy that
shifts the box right by one. -/
def cfg1 : SDMConfig Unit :=
  ⟨[1], [⟨5, id⟩], none,
   fun _ bb => bb.map (fun p => (p.1 + 1, p.2)),
   collabTriv⟩

/-- A concrete caller image with one ground-truth group. -/
def img0 : Image := ⟨0, [("face", [(0, 0), (2, 1)])]⟩

/-- A concrete initial fitter state: no reference shape, two requested
perturbations, one stage. -/
def S0 : SDMState Unit := ⟨none, 2, [()]⟩

/-- Whether an event is a cascade-stage invocation. -/
def isStageEv : Ev → Bool
  | .stageTrain _ => true
  | .stageIncrement _ => true
  | _ => false

/-- Whether an event is a `train` stage invocation. -/
def isTrainEv : Ev → Bool
  | .stageTrain _ => true
  | _ => false

/-- Whether an event is an `increment` stage invocation. -/
def isIncrEv : Ev → Bool
  | .stageIncrement _ => true
  | _ => false

/-- Whether an event is a perturbation-strategy call. -/
def isPerturbEv : Ev → Bool
  | .perturbCall _ _ => true
  | _ => false

/-- Whether an event is a landmark write. -/
def isAttachEv : Ev → Bool
  | .attach _ _ => true
  | _ => false

/-- Whether an event is a feature-extraction call. -/
def isComputeFeatEv : Ev → Bool
  | .computeFeaturesEv _ => true
  | _ => false

/-- Whether an event is an image-scaling call. -/
def isScaleImagesEv : Ev → Bool
  | .scaleImagesEv _ => true
  | _ => false

/-- Whether an event is a cross-scale shape transform. -/
def isApplyTransformEv : Ev → Bool
  | .applyScaleTransform _ _ => true
  | _ => false

/-- Whether an event is the reference-shape computation. -/
def isComputeRefEv : Ev → Bool
  | .computeRef => true
  | _ => false

/-- Whether an event is the perturbation-count warning. -/
def isWarnNPerturbEv : Ev → Bool
  | .warnNPerturb _ _ => true
  | _ => false

/-- The written identity of a landmark-write event (0 otherwise). -/
def attachIid : Ev → ℕ
  | .attach i _ => i
  | _ => 0

lemma scaleStep_trace_mem {σ : Type} [Inhabited σ] (cfg : SDMConfig σ)
    (group : String) (keys : List String) (ref : Shape) (inc : Bool)
    (batch : List Image) (j : ℕ) (prev : List Image) (algs : List σ)
    (cur : List (List Shape)) :
    ∀ e ∈ (scaleStep cfg group keys ref inc batch j prev algs cur).trace,
      isStageEv e ∨ isComputeFeatEv e ∨ isScaleImagesEv e ∨ isApplyTransformEv e := by
  intro e he
  simp only [scaleStep, List.mem_append] at he
  rcases he with ((h | h) | h) | h
  · split at h <;> simp_all [isComputeFeatEv]
  · split at h <;> simp_all [isScaleImagesEv]
  · cases inc <;> simp_all [isStageEv]
  · split at h <;> simp_all [isApplyTransformEv]

lemma scaleStep_trace_stage {σ : Type} [Inhabited σ] (cfg : SDMConfig σ)
    (group : String) (keys : List String) (ref : Shape) (inc : Bool)
    (batch : List Image) (j : ℕ) (prev : List Image) (algs : List σ)
    (cur : List (List Shape)) :
    ((scaleStep cfg group keys ref inc batch j prev algs cur).trace).filter isStageEv
      = [if inc then Ev.stageIncrement j else Ev.stageTrain j] := by
  simp only [scaleStep, List.filter_append]
  cases inc <;>
    · split <;> split <;> split <;> simp [isStageEv]

lemma scaleLoopFrom_trace_stage {σ : Type} [Inhabited σ] (cfg : SDMConfig σ)
    (group : String) (keys : List String) (ref : Shape) (inc : Bool)
    (batch : List Image) (fuel : ℕ) : ∀ (j : ℕ) (prev : List Image)
    (algs : List σ) (cur : List (List Shape)),
    ((scaleLoopFrom cfg group keys ref inc batch fuel j prev algs cur).trace).filter
        isStageEv
      = (List.range' j fuel).map
          (fun i => if inc then Ev.stageIncrement i else Ev.stageTrain i) := by
  induction fuel with
  | zero => intro j prev algs cur; simp [scaleLoopFrom]
  | succ n ih =>
    intro j prev algs cur
    simp only [scaleLoopFrom, List.filter_append, List.range'_succ, List.map_cons,
      scaleStep_trace_stage, ih]
    rfl

lemma scaleLoopFrom_trace_mem {σ : Type} [Inhabited σ] (cfg : SDMConfig σ)
    (group : String) (keys : List String) (ref : Shape) (inc : Bool)
    (batch : List Image) (fuel : ℕ) : ∀ (j : ℕ) (prev : List Image)
    (algs : List σ) (cur : List (List Shape)),
    ∀ e ∈ (scaleLoopFrom cfg group keys ref inc batch fuel j prev algs cur).trace,
      isStageEv e ∨ isComputeFeatEv e ∨ isScaleImagesEv e ∨ isApplyTransformEv e := by
  induction fuel with
  | zero => intro j prev algs cur e he; simp [scaleLoopFrom] at he
  | succ n ih =>
    intro j prev algs cur e he
    simp only [scaleLoopFrom, List.mem_append] at he
    rcases he with h | h
    · exact scaleStep_trace_mem cfg group keys ref inc batch j prev algs cur e h
    · exact ih (j + 1) _ _ _ e h

lemma setLm_iid (i : Image) (k : String) (s : Shape) : (setLm i k s).iid = i.iid := by
  simp only [setLm]
  split <;> rfl

lemma find?_map_set (l : List (String × Shape)) (k k' : String) (s : Shape)
    (h : k ≠ k') :
    (l.map (fun p => if p.1 == k then (k, s) else p)).find? (fun p => p.1 == k')
      = l.find? (fun p => p.1 == k') := by
  induction l with
  | nil => rfl
  | cons p t ih =>
    simp only [List.map_cons]
    by_cases hp : p.1 = k
    · have hif : (if (p.1 == k) = true then (k, s) else p) = (k, s) := by simp [hp]
      rw [hif]
      rw [List.find?_cons_of_neg _ (by simp [h]),
        List.find?_cons_of_neg _ (by simp [hp, h]), ih]
    · have hif : (if (p.1 == k) = true then (k, s) else p) = p := by simp [hp]
      rw [hif]
      by_cases hk' : p.1 = k'
      · rw [List.find?_cons_of_pos _ (by simp [hk']),
          List.find?_cons_of_pos _ (by simp [hk'])]
      · rw [List.find?_cons_of_neg _ (by simp [hk']),
          List.find?_cons_of_neg _ (by simp [hk']), ih]

lemma lookupLm_setLm_ne (i : Image) (k k' : String) (s : Shape) (h : k ≠ k') :
    lookupLm (setLm i k s) k' = lookupLm i k' := by
  by_cases hk : hasKey i k
  · simp only [lookupLm, setLm, hk, if_true]
    rw [find?_map_set _ _ _ _ h]
  · simp only [lookupLm, setLm, hk, if_false, Bool.false_eq_true]
    rw [List.find?_append]
    have h1 : List.find? (fun p => p.1 == k') [(k, s)] = none := by
      have hb : (k == k') = false := by simp [h]
      simp [List.find?, hb]
    simp [h1]

lemma groupLabels_setLm (i : Image) (k : String) (s : Shape) :
    groupLabels (setLm i k s) = if hasKey i k then groupLabels i
      else groupLabels i ++ [k] := by
  simp only [setLm, groupLabels]
  split
  · simp only [if_true, List.map_map]
    apply List.map_congr_left
    intro p _
    by_cases hp : p.1 = k
    · simp [hp]
    · simp [hp]
  · simp

lemma groupLabels_setLm_mono (i : Image) (k k' : String) (s : Shape)
    (h : k' ∈ groupLabels i) : k' ∈ groupLabels (setLm i k s) := by
  rw [groupLabels_setLm]
  split <;> simp [h]

lemma mem_groupLabels_setLm_self (i : Image) (k : String) (s : Shape) :
    k ∈ groupLabels (setLm i k s) := by
  rw [groupLabels_setLm]
  split
  · rename_i hk
    simp only [hasKey, List.any_eq_true] at hk
    obtain ⟨p, hp, he⟩ := hk
    have hpk : p.1 = k := by simpa using he
    exact hpk ▸ List.mem_map_of_mem Prod.fst hp
  · simp

/-- The perturbation key of iteration `j` (fitter.py line 146). -/
def perturbKey (bbGroup : String) (j : ℕ) : String :=
  bbGroup ++ "_" ++ toString j

lemma perturbFold_fst (f : Shape → Shape → Shape) (group seedKey bbGroup : String)
    (js : List ℕ) :
    ∀ (i : Image) (ev0 : List Ev),
    (∀ j ∈ js, perturbKey bbGroup j ≠ group) →
    (∀ j ∈ js, perturbKey bbGroup j ≠ seedKey) →
    (js.foldl (perturbStepJ f group seedKey bbGroup) (i, ev0)).1.iid = i.iid ∧
    lookupLm (js.foldl (perturbStepJ f group seedKey bbGroup) (i, ev0)).1 group
      = lookupLm i group ∧
    lookupLm (js.foldl (perturbStepJ f group seedKey bbGroup) (i, ev0)).1 seedKey
      = lookupLm i seedKey ∧
    (∀ k', k' ∈ groupLabels i →
      k' ∈ groupLabels (js.foldl (perturbStepJ f group seedKey bbGroup) (i, ev0)).1) ∧
    (∀ j ∈ js, perturbKey bbGroup j
      ∈ groupLabels (js.foldl (perturbStepJ f group seedKey bbGroup) (i, ev0)).1) := by
  induction js with
  | nil =>
    intro i ev0 _ _
    exact ⟨rfl, rfl, rfl, fun k' h => h, fun j hj => absurd hj (by simp)⟩
  | cons j t ih =>
    intro i ev0 hg hs
    have hgj : perturbKey bbGroup j ≠ group := hg j (by simp)
    have hsj : perturbKey bbGroup j ≠ seedKey := hs j (by simp)
    have hstep : perturbStepJ f group seedKey bbGroup (i, ev0) j
        = (setLm i (perturbKey bbGroup j)
            (f (boundingBox (lookupLm i group)) (lookupLm i seedKey)),
           ev0 ++ [Ev.perturbCall (boundingBox (lookupLm i group)) (lookupLm i seedKey),
             Ev.attach i.iid (perturbKey bbGroup j)]) := rfl
    have hfold : (j :: t).foldl (perturbStepJ f group seedKey bbGroup) (i, ev0)
        = t.foldl (perturbStepJ f group seedKey bbGroup)
            (perturbStepJ f group seedKey bbGroup (i, ev0) j) := rfl
    rw [hfold, hstep]
    obtain ⟨h1, h2, h3, h5, h6⟩ := ih _ _
      (fun x hx => hg x (by simp [hx])) (fun x hx => hs x (by simp [hx]))
    refine ⟨by rw [h1, setLm_iid], ?_, ?_, ?_, ?_⟩
    · rw [h2, lookupLm_setLm_ne _ _ _ _ hgj]
    · rw [h3, lookupLm_setLm_ne _ _ _ _ hsj]
    · intro k' hk'
      exact h5 k' (groupLabels_setLm_mono _ _ _ _ hk')
    · intro x hx
      rcases List.mem_cons.mp hx with hx | hx
      · subst hx
        exact h5 _ (mem_groupLabels_setLm_self _ _ _)
      · exact h6 x hx

lemma perturbFold_snd (f : Shape → Shape → Shape) (group seedKey bbGroup : String)
    (js : List ℕ) :
    ∀ (i : Image) (ev0 : List Ev),
    (∀ j ∈ js, perturbKey bbGroup j ≠ group) →
    (∀ j ∈ js, perturbKey bbGroup j ≠ seedKey) →
    (js.foldl (perturbStepJ f group seedKey bbGroup) (i, ev0)).2
      = ev0 ++ js.flatMap (fun j =>
          [Ev.perturbCall (boundingBox (lookupLm i group)) (lookupLm i seedKey),
           Ev.attach i.iid (perturbKey bbGroup j)]) := by
  induction js with
  | nil => intro i ev0 _ _; simp [List.foldl]
  | cons j t ih =>
    intro i ev0 hg hs
    have hgj : perturbKey bbGroup j ≠ group := hg j (by simp)
    have hsj : perturbKey bbGroup j ≠ seedKey := hs j (by simp)
    have hstep : perturbStepJ f group seedKey bbGroup (i, ev0) j
        = (setLm i (perturbKey bbGroup j)
            (f (boundingBox (lookupLm i group)) (lookupLm i seedKey)),
           ev0 ++ [Ev.perturbCall (boundingBox (lookupLm i group)) (lookupLm i seedKey),
             Ev.attach i.iid (perturbKey bbGroup j)]) := rfl
    have hfold : (j :: t).foldl (perturbStepJ f group seedKey bbGroup) (i, ev0)
        = t.foldl (perturbStepJ f group seedKey bbGroup)
            (perturbStepJ f group seedKey bbGroup (i, ev0) j) := rfl
    rw [hfold, hstep]
    rw [ih _ _ (fun x hx => hg x (by simp [hx])) (fun x hx => hs x (by simp [hx]))]
    rw [lookupLm_setLm_ne _ _ _ _ hgj, lookupLm_setLm_ne _ _ _ _ hsj, setLm_iid]
    simp

lemma refTrace_mem {σ : Type} (S : SDMState σ) (bs : Option ℕ) :
    ∀ e ∈ refTrace S bs, e = Ev.computeRef ∨ e = Ev.warnRefShape := by
  intro e he
  rcases hr : S.referenceShape with _ | r
  · simp only [refTrace, hr, List.mem_append] at he
    rcases he with h | h
    · split at h <;> simp_all
    · simp at h
      simp [h]
  · simp [refTrace, hr] at he

lemma gtBoxStep_trace_mem (g : String) (b : List Image) :
    ∀ e ∈ (gtBoxStep g b).2, ∃ n k, e = Ev.attach n k := by
  intro e he
  simp only [gtBoxStep, List.mem_map] at he
  obtain ⟨i, _, rfl⟩ := he
  exact ⟨i.iid, _, rfl⟩

lemma resolveBBGroup_trace_mem (bb : Option String) (g : String) (w : List Image) :
    ∀ e ∈ (resolveBBGroup bb g w).2.2, ∃ n k, e = Ev.attach n k := by
  intro e he
  cases bb with
  | none => exact gtBoxStep_trace_mem g w e he
  | some s => simp [resolveBBGroup] at he

lemma perturbFold_trace_mem (f : Shape → Shape → Shape) (group seedKey bbGroup : String)
    (js : List ℕ) :
    ∀ (i : Image) (ev0 : List Ev),
    ∀ e ∈ (js.foldl (perturbStepJ f group seedKey bbGroup) (i, ev0)).2,
      e ∈ ev0 ∨ (∃ a b, e = Ev.perturbCall a b) ∨ (∃ n k, e = Ev.attach n k) := by
  induction js with
  | nil => intro i ev0 e he; exact Or.inl he
  | cons j t ih =>
    intro i ev0 e he
    have := ih (perturbStepJ f group seedKey bbGroup (i, ev0) j).1
      (perturbStepJ f group seedKey bbGroup (i, ev0) j).2 e he
    rcases this with h | h
    · simp only [perturbStepJ, List.mem_append, List.mem_cons] at h
      rcases h with h | h
      · exact Or.inl h
      · rcases h with h | h | h
        · exact Or.inr (Or.inl ⟨_, _, h⟩)
        · exact Or.inr (Or.inr ⟨_, _, h⟩)
        · simp at h
    · exact Or.inr h

lemma resolvePerturbations_trace_mem {σ : Type} (f : Shape → Shape → Shape)
    (S : SDMState σ) (group bbGroup : String) (keys : List String)
    (working : List Image) :
    ∀ e ∈ (resolvePerturbations f S group bbGroup keys working).2.2,
      (∃ o n, e = Ev.warnNPerturb o n) ∨ (∃ a b, e = Ev.perturbCall a b)
        ∨ (∃ n k, e = Ev.attach n k) := by
  intro e he
  simp only [resolvePerturbations] at he
  split at he
  · simp only [List.mem_flatten, List.mem_map] at he
    obtain ⟨l, ⟨q, ⟨i, _, rfl⟩, rfl⟩, hel⟩ := he
    have := perturbFold_trace_mem f group (keys.headD "") bbGroup _ i [] e hel
    rcases this with h | h
    · simp at h
    · exact Or.inr h
  · split at he
    · simp only [List.mem_singleton] at he
      exact Or.inl ⟨_, _, he⟩
    · simp at he

lemma scaleLoopFrom_trace_forms {σ : Type} [Inhabited σ] (cfg : SDMConfig σ)
    (group : String) (keys : List String) (ref : Shape) (inc : Bool)
    (batch : List Image) (fuel j : ℕ) (prev : List Image) (algs : List σ)
    (cur : List (List Shape)) :
    ∀ e ∈ (scaleLoopFrom cfg group keys ref inc batch fuel j prev algs cur).trace,
      (∃ n, e = Ev.stageTrain n) ∨ (∃ n, e = Ev.stageIncrement n)
        ∨ (∃ n, e = Ev.computeFeaturesEv n) ∨ (∃ s, e = Ev.scaleImagesEv s)
        ∨ (∃ n r, e = Ev.applyScaleTransform n r) := by
  intro e he
  have := scaleLoopFrom_trace_mem cfg group keys ref inc batch fuel j prev algs cur e he
  rcases this with h | h | h | h <;> cases e <;>
    simp_all [isStageEv, isComputeFeatEv, isScaleImagesEv, isApplyTransformEv]

lemma refTrace_filter_nil {σ : Type} (S : SDMState σ) (bs : Option ℕ)
    (p : Ev → Bool) (hc : p Ev.computeRef = false) (hw : p Ev.warnRefShape = false) :
    (refTrace S bs).filter p = [] := by
  rw [List.filter_eq_nil_iff]
  intro e he
  rcases refTrace_mem S bs e he with rfl | rfl <;> simp [hc, hw]

lemma resolveBBGroup_filter_nil (bb : Option String) (g : String) (w : List Image)
    (p : Ev → Bool) (ha : ∀ n k, p (Ev.attach n k) = false) :
    ((resolveBBGroup bb g w).2.2).filter p = [] := by
  rw [List.filter_eq_nil_iff]
  intro e he
  obtain ⟨n, k, rfl⟩ := resolveBBGroup_trace_mem bb g w e he
  simp [ha]

lemma resolvePerturbations_filter_nil {σ : Type} (f : Shape → Shape → Shape)
    (S : SDMState σ) (group bbGroup : String) (keys : List String)
    (working : List Image) (p : Ev → Bool)
    (hw : ∀ o n, p (Ev.warnNPerturb o n) = false)
    (hp : ∀ a b, p (Ev.perturbCall a b) = false)
    (ha : ∀ n k, p (Ev.attach n k) = false) :
    ((resolvePerturbations f S group bbGroup keys working).2.2).filter p = [] := by
  rw [List.filter_eq_nil_iff]
  intro e he
  rcases resolvePerturbations_trace_mem f S group bbGroup keys working e he with
    ⟨o, n, rfl⟩ | ⟨a, b, rfl⟩ | ⟨n, k, rfl⟩ <;> simp [hw, hp, ha]

lemma scaleLoopFrom_filter_nil {σ : Type} [Inhabited σ] (cfg : SDMConfig σ)
    (group : String) (keys : List String) (ref : Shape) (inc : Bool)
    (batch : List Image) (fuel j : ℕ) (prev : List Image) (algs : List σ)
    (cur : List (List Shape)) (p : Ev → Bool)
    (h1 : ∀ n, p (Ev.stageTrain n) = false)
    (h2 : ∀ n, p (Ev.stageIncrement n) = false)
    (h3 : ∀ n, p (Ev.computeFeaturesEv n) = false)
    (h4 : ∀ s, p (Ev.scaleImagesEv s) = false)
    (h5 : ∀ n r, p (Ev.applyScaleTransform n r) = false) :
    ((scaleLoopFrom cfg group keys ref inc batch fuel j prev algs cur).trace).filter p
      = [] := by
  rw [List.filter_eq_nil_iff]
  intro e he
  rcases scaleLoopFrom_trace_forms cfg group keys ref inc batch fuel j prev algs cur
    e he with ⟨n, rfl⟩ | ⟨n, rfl⟩ | ⟨n, rfl⟩ | ⟨s, rfl⟩ | ⟨n, r, rfl⟩ <;>
    simp [h1, h2, h3, h4, h5]

lemma processBatch_trace_stage {σ : Type} [Inhabited σ] (cfg : SDMConfig σ)
    (S : SDMState σ) (g0 bb0 : Option String) (bs : Option ℕ) (inc : Bool)
    (batch : List Image) :
    ((processBatch cfg S g0 bb0 bs inc batch).trace).filter isStageEv
      = (List.range' 0 cfg.scales.length).map
          (fun j => if inc then Ev.stageIncrement j else Ev.stageTrain j) := by
  simp only [processBatch, List.filter_append,
    refTrace_filter_nil _ _ isStageEv rfl rfl,
    resolveBBGroup_filter_nil _ _ _ isStageEv (fun _ _ => rfl),
    resolvePerturbations_filter_nil _ _ _ _ _ _ isStageEv
      (fun _ _ => rfl) (fun _ _ => rfl) (fun _ _ => rfl),
    scaleLoopFrom_trace_stage, List.nil_append]

lemma trainLoop_traces_stage {σ : Type} [Inhabited σ] (cfg : SDMConfig σ)
    (bb0 : Option String) (bs : Option ℕ) :
    ∀ (batches : List (List Image)) (S : SDMState σ) (g0 : Option String)
      (inc : Bool) (k : ℕ) (tr : List Ev),
    ((trainLoop cfg bb0 bs S g0 inc batches).batchTraces).get? k = some tr →
    tr.filter isStageEv = (List.range' 0 cfg.scales.length).map
      (fun j => if inc ∨ 0 < k then Ev.stageIncrement j else Ev.stageTrain j) := by
  intro batches
  induction batches with
  | nil => intro S g0 inc k tr h; simp [trainLoop] at h
  | cons b rest ih =>
    intro S g0 inc k tr h
    cases k with
    | zero =>
      simp only [trainLoop, List.get?] at h
      have htr : tr = (processBatch cfg S g0 bb0 bs inc b).trace := by
        injection h with h'
        exact h'.symm
      subst htr
      rw [processBatch_trace_stage]
      simp
    | succ k' =>
      simp only [trainLoop, List.get?] at h
      have := ih _ _ true k' tr h
      rw [this]
      simp

/-- C1: in a run started with `increment=False` (the constructor-initiated
training, fitter.py lines 51-53 and 78-81), the first batch's trace
invokes `CascadeStage.train` once per scale and never `increment`, while
every later batch of the same call invokes only `increment`; and in a run
started through the public `increment` method, every batch invokes only
`increment`.  Hence `train` is never invoked after the first batch of the
constructor-initiated training. -/
theorem C1_first_batch_trains_then_increments {σ σ' : Type} [Inhabited σ]
    [Inhabited σ'] (cfg : SDMConfig σ) (cfg' : SDMConfig σ') (S : SDMState σ)
    (S' : SDMState σ') (images images' : List Image)
    (g0 g0' bb0 bb0' : Option String) (bs bs' : Option ℕ) :
    (∀ k tr, ((SDMtrain cfg S images g0 bb0 false bs).batchTraces).get? k = some tr →
      tr.filter isStageEv = (List.range' 0 cfg.scales.length).map
        (fun j => if 0 < k then Ev.stageIncrement j else Ev.stageTrain j))
    ∧ (∀ k tr, ((SDMincrement cfg' S' images' g0' bb0' bs').batchTraces).get? k
        = some tr →
      tr.filter isStageEv
        = (List.range' 0 cfg'.scales.length).map Ev.stageIncrement) := by
  constructor
  · intro k tr h
    have := trainLoop_traces_stage cfg bb0 bs _ S g0 false k tr h
    rw [this]
    simp
  · intro k tr h
    have := trainLoop_traces_stage cfg' bb0' bs' _ S' g0' true k tr h
    rw [this]
    simp

/-- A second concrete caller image. -/
def img1 : Image := ⟨1, [("face", [(1, 1), (3, 2)])]⟩

/-- Witness for C1: on a concrete two-image run with `batch_size=1`, the
first batch's stage events are exactly one `train` per scale, the second
batch's are exactly one `increment` per scale, and a concrete `increment`
call produces only `increment` events. -/
theorem C1_witness :
    ((((SDMtrain cfg1 S0 [img0, img1] none none false (some 1)).batchTraces).getD 0
      []).filter isStageEv = [Ev.stageTrain 0])
    ∧ ((((SDMtrain cfg1 S0 [img0, img1] none none false (some 1)).batchTraces).getD 1
      []).filter isStageEv = [Ev.stageIncrement 0])
    ∧ ((((SDMincrement cfg1 S0 [img0] none none none).batchTraces).getD 0
      []).filter isStageEv = [Ev.stageIncrement 0]) := by
  have h := C1_first_batch_trains_then_increments cfg1 cfg1 S0 S0
    [img0, img1] [img0] none none none none (some 1) none
  refine ⟨?_, ?_, ?_⟩
  · have := h.1 0 (((SDMtrain cfg1 S0 [img0, img1] none none false
      (some 1)).batchTraces).getD 0 []) rfl
    rw [this]
    decide
  · have := h.1 1 (((SDMtrain cfg1 S0 [img0, img1] none none false
      (some 1)).batchTraces).getD 1 []) rfl
    rw [this]
    decide
  · have := h.2 0 (((SDMincrement cfg1 S0 [img0] none none
      none).batchTraces).getD 0 []) rfl
    rw [this]
    decide

lemma resolvePerturbations_of_many {σ : Type} (f : Shape → Shape → Shape)
    (S : SDMState σ) (group bbGroup : String) (keys : List String)
    (working : List Image) (hm : keys.length ≠ 1)
    (hne : keys.length ≠ S.nPerturbations) :
    resolvePerturbations f S group bbGroup keys working
      = ({S with nPerturbations := keys.length}, working,
         [Ev.warnNPerturb S.nPerturbations keys.length]) := by
  simp [resolvePerturbations, hm, hne]

lemma resolvePerturbations_of_match {σ : Type} (f : Shape → Shape → Shape)
    (S : SDMState σ) (group bbGroup : String) (keys : List String)
    (working : List Image) (hm : keys.length ≠ 1)
    (heq : keys.length = S.nPerturbations) :
    resolvePerturbations f S group bbGroup keys working = (S, working, []) := by
  unfold resolvePerturbations
  rw [if_neg hm, if_neg (not_not_intro heq)]

lemma resolvePerturbations_of_one {σ : Type} (f : Shape → Shape → Shape)
    (S : SDMState σ) (group bbGroup : String) (keys : List String)
    (working : List Image) (h1 : keys.length = 1) :
    resolvePerturbations f S group bbGroup keys working
      = (S, (working.map (perturbImage f S.nPerturbations group
            (keys.headD "") bbGroup)).map Prod.fst,
         ((working.map (perturbImage f S.nPerturbations group
            (keys.headD "") bbGroup)).map Prod.snd).flatten) := by
  simp [resolvePerturbations, h1]


lemma countP_eq_zero_of_filter_nil {l : List Ev} {p : Ev → Bool}
    (h : l.filter p = []) : l.countP p = 0 := by
  rw [List.countP_eq_length_filter, h]
  rfl

/-- C3: for a batch whose resolved namespace holds `m > 1` bounding
boxes, when `m` differs from the configured `n_perturbations` the batch
records exactly one perturbation-count warning, the stored
`n_perturbations` becomes `m`, no perturbation-strategy call happens and
the working images are exactly the supplied ones; when `m` agrees, no
warning is recorded and `n_perturbations` is unchanged (fitter.py lines
123-127 and 148-154). -/
theorem C3_count_reconciliation {σ : Type} [Inhabited σ] (cfg : SDMConfig σ)
    (S : SDMState σ) (g0 bb0 : Option String) (bs : Option ℕ) (inc : Bool)
    (batch : List Image) (hm : 1 < (batchBBKeys cfg S g0 bb0 batch).length) :
    ((batchBBKeys cfg S g0 bb0 batch).length ≠ S.nPerturbations →
      ((processBatch cfg S g0 bb0 bs inc batch).trace).countP isWarnNPerturbEv = 1
      ∧ (processBatch cfg S g0 bb0 bs inc batch).state.nPerturbations
          = (batchBBKeys cfg S g0 bb0 batch).length
      ∧ ((processBatch cfg S g0 bb0 bs inc batch).trace).countP isPerturbEv = 0
      ∧ (processBatch cfg S g0 bb0 bs inc batch).working
          = batchWorking1 cfg S g0 bb0 batch)
    ∧ ((batchBBKeys cfg S g0 bb0 batch).length = S.nPerturbations →
      ((processBatch cfg S g0 bb0 bs inc batch).trace).countP isWarnNPerturbEv = 0
      ∧ (processBatch cfg S g0 bb0 bs inc batch).state.nPerturbations
          = S.nPerturbations
      ∧ ((processBatch cfg S g0 bb0 bs inc batch).trace).countP isPerturbEv = 0
      ∧ (processBatch cfg S g0 bb0 bs inc batch).working
          = batchWorking1 cfg S g0 bb0 batch) := by
  have hm1 : (batchBBKeys cfg S g0 bb0 batch).length ≠ 1 := by omega
  constructor
  · intro hne
    have hrp := resolvePerturbations_of_many cfg.perturbFromBoundingBox
      {S with referenceShape := some (resolvedRef cfg S (resolveGroup g0 batch) batch)}
      (resolveGroup g0 batch) (bbGroupName bb0) (batchBBKeys cfg S g0 bb0 batch)
      (batchWorking1 cfg S g0 bb0 batch) hm1 hne
    simp only [processBatch, hrp, List.countP_append]
    refine ⟨?_, trivial, ?_, trivial⟩
    · rw [countP_eq_zero_of_filter_nil
        (refTrace_filter_nil _ _ isWarnNPerturbEv rfl rfl),
        countP_eq_zero_of_filter_nil
          (resolveBBGroup_filter_nil _ _ _ isWarnNPerturbEv (fun _ _ => rfl)),
        countP_eq_zero_of_filter_nil
          (scaleLoopFrom_filter_nil _ _ _ _ _ _ _ _ _ _ _ isWarnNPerturbEv
            (fun _ => rfl) (fun _ => rfl) (fun _ => rfl) (fun _ => rfl)
            (fun _ _ => rfl))]
      rfl
    · rw [countP_eq_zero_of_filter_nil
        (refTrace_filter_nil _ _ isPerturbEv rfl rfl),
        countP_eq_zero_of_filter_nil
          (resolveBBGroup_filter_nil _ _ _ isPerturbEv (fun _ _ => rfl)),
        countP_eq_zero_of_filter_nil
          (scaleLoopFrom_filter_nil _ _ _ _ _ _ _ _ _ _ _ isPerturbEv
            (fun _ => rfl) (fun _ => rfl) (fun _ => rfl) (fun _ => rfl)
            (fun _ _ => rfl))]
      rfl
  · intro heq
    have hrp := resolvePerturbations_of_match cfg.perturbFromBoundingBox
      {S with referenceShape := some (resolvedRef cfg S (resolveGroup g0 batch) batch)}
      (resolveGroup g0 batch) (bbGroupName bb0) (batchBBKeys cfg S g0 bb0 batch)
      (batchWorking1 cfg S g0 bb0 batch) hm1 heq
    simp only [processBatch, hrp, List.countP_append]
    refine ⟨?_, trivial, ?_, trivial⟩
    · rw [countP_eq_zero_of_filter_nil
        (refTrace_filter_nil _ _ isWarnNPerturbEv rfl rfl),
        countP_eq_zero_of_filter_nil
          (resolveBBGroup_filter_nil _ _ _ isWarnNPerturbEv (fun _ _ => rfl)),
        countP_eq_zero_of_filter_nil
          (scaleLoopFrom_filter_nil _ _ _ _ _ _ _ _ _ _ _ isWarnNPerturbEv
            (fun _ => rfl) (fun _ => rfl) (fun _ => rfl) (fun _ => rfl)
            (fun _ _ => rfl))]
      rfl
    · rw [countP_eq_zero_of_filter_nil
        (refTrace_filter_nil _ _ isPerturbEv rfl rfl),
        countP_eq_zero_of_filter_nil
          (resolveBBGroup_filter_nil _ _ _ isPerturbEv (fun _ _ => rfl)),
        countP_eq_zero_of_filter_nil
          (scaleLoopFrom_filter_nil _ _ _ _ _ _ _ _ _ _ _ isPerturbEv
            (fun _ => rfl) (fun _ => rfl) (fun _ => rfl) (fun _ => rfl)
            (fun _ _ => rfl))]
      rfl

/-- A concrete caller image carrying two supplied bounding boxes under
the namespace "bb". -/
def img2 : Image :=
  ⟨0, [("face", [(0, 0), (2, 1)]), ("bb_a", [(0, 0)]), ("bb_b", [(1, 1)])]⟩

/-- A concrete state whose configured perturbation count (5) disagrees
with the two supplied boxes. -/
def S3 : SDMState Unit := ⟨none, 5, [()]⟩

/-- A concrete state whose configured perturbation count (2) agrees with
the two supplied boxes. -/
def S4 : SDMState Unit := ⟨none, 2, [()]⟩

/-- Witness for C3 at a concrete batch with two supplied boxes: one
warning and count overwritten to 2 when the configuration says 5; no
warning when it says 2. -/
theorem C3_witness :
    ((processBatch cfg1 S3 none (some "bb") none false [img2]).trace).countP
      isWarnNPerturbEv = 1
    ∧ (processBatch cfg1 S3 none (some "bb") none false [img2]).state.nPerturbations
      = 2
    ∧ ((processBatch cfg1 S3 none (some "bb") none false [img2]).trace).countP
      isPerturbEv = 0
    ∧ ((processBatch cfg1 S4 none (some "bb") none false [img2]).trace).countP
      isWarnNPerturbEv = 0 := by
  have h1 := C3_count_reconciliation cfg1 S3 none (some "bb") none false [img2]
    (by decide)
  have h2 := C3_count_reconciliation cfg1 S4 none (some "bb") none false [img2]
    (by decide)
  have ha := h1.1 (by decide)
  have hb := h2.2 (by decide)
  refine ⟨ha.1, ?_, ha.2.2.1, hb.1⟩
  rw [ha.2.1]
  decide

lemma resolvePerturbations_fst_refShape {σ : Type} (f : Shape → Shape → Shape)
    (S : SDMState σ) (g bg : String) (keys : List String) (w : List Image) :
    (resolvePerturbations f S g bg keys w).1.referenceShape = S.referenceShape := by
  unfold resolvePerturbations
  split
  · rfl
  · split <;> rfl

lemma resolvedRef_some {σ : Type} (cfg : SDMConfig σ) (S : SDMState σ)
    (g : String) (b : List Image) (r : Shape) (h : S.referenceShape = some r) :
    resolvedRef cfg S g b = r := by
  simp [resolvedRef, h]

lemma resolvedRef_none {σ : Type} (cfg : SDMConfig σ) (S : SDMState σ)
    (g : String) (b : List Image) (h : S.referenceShape = none) :
    resolvedRef cfg S g b
      = cfg.collab.computeReferenceShape (b.map (fun i => lookupLm i g))
          cfg.diagonal := by
  simp [resolvedRef, h]

lemma processBatch_state_refShape {σ : Type} [Inhabited σ] (cfg : SDMConfig σ)
    (S : SDMState σ) (g0 bb0 : Option String) (bs : Option ℕ) (inc : Bool)
    (batch : List Image) :
    (processBatch cfg S g0 bb0 bs inc batch).state.referenceShape
      = some (resolvedRef cfg S (resolveGroup g0 batch) batch) := by
  simp only [processBatch]
  rw [resolvePerturbations_fst_refShape]

lemma refTrace_countP_computeRef {σ : Type} (S : SDMState σ) (bs : Option ℕ) :
    (refTrace S bs).countP isComputeRefEv
      = if S.referenceShape = none then 1 else 0 := by
  rcases h : S.referenceShape with _ | r
  · simp only [refTrace, h, if_pos rfl, List.countP_append]
    split <;> rfl
  · simp [refTrace, h]

lemma refTrace_warn_mem {σ : Type} (S : SDMState σ) (bs : Option ℕ) :
    Ev.warnRefShape ∈ refTrace S bs ↔ (S.referenceShape = none ∧ bs ≠ none) := by
  rcases h : S.referenceShape with _ | r
  · simp only [refTrace, h, List.mem_append]
    rcases bs with _ | n <;> simp
  · simp [refTrace, h]

lemma processBatch_countP_computeRef {σ : Type} [Inhabited σ] (cfg : SDMConfig σ)
    (S : SDMState σ) (g0 bb0 : Option String) (bs : Option ℕ) (inc : Bool)
    (batch : List Image) :
    ((processBatch cfg S g0 bb0 bs inc batch).trace).countP isComputeRefEv
      = if S.referenceShape = none then 1 else 0 := by
  simp only [processBatch, List.countP_append]
  rw [refTrace_countP_computeRef,
    countP_eq_zero_of_filter_nil
      (resolveBBGroup_filter_nil _ _ _ isComputeRefEv (fun _ _ => rfl)),
    countP_eq_zero_of_filter_nil
      (resolvePerturbations_filter_nil _ _ _ _ _ _ isComputeRefEv
        (fun _ _ => rfl) (fun _ _ => rfl) (fun _ _ => rfl)),
    countP_eq_zero_of_filter_nil
      (scaleLoopFrom_filter_nil _ _ _ _ _ _ _ _ _ _ _ isComputeRefEv
        (fun _ => rfl) (fun _ => rfl) (fun _ => rfl) (fun _ => rfl)
        (fun _ _ => rfl))]
  omega

lemma processBatch_warn_mem {σ : Type} [Inhabited σ] (cfg : SDMConfig σ)
    (S : SDMState σ) (g0 bb0 : Option String) (bs : Option ℕ) (inc : Bool)
    (batch : List Image) :
    Ev.warnRefShape ∈ (processBatch cfg S g0 bb0 bs inc batch).trace
      ↔ (S.referenceShape = none ∧ bs ≠ none) := by
  simp only [processBatch, List.mem_append]
  constructor
  · rintro (((h | h) | h) | h)
    · exact (refTrace_warn_mem S bs).mp h
    · obtain ⟨n, k, hk⟩ := resolveBBGroup_trace_mem _ _ _ _ h
      simp at hk
    · rcases resolvePerturbations_trace_mem _ _ _ _ _ _ _ h with
        ⟨o, n, hk⟩ | ⟨a, b, hk⟩ | ⟨n, k, hk⟩ <;> simp at hk
    · rcases scaleLoopFrom_trace_forms _ _ _ _ _ _ _ _ _ _ _ _ h with
        ⟨n, hk⟩ | ⟨n, hk⟩ | ⟨n, hk⟩ | ⟨s, hk⟩ | ⟨n, r, hk⟩ <;> simp at hk
  · intro h
    exact Or.inl (Or.inl (Or.inl ((refTrace_warn_mem S bs).mpr h)))

lemma trainLoop_ref_some {σ : Type} [Inhabited σ] (cfg : SDMConfig σ)
    (bb0 : Option String) (bs : Option ℕ) :
    ∀ (batches : List (List Image)) (S : SDMState σ) (g0 : Option String)
      (inc : Bool) (r : Shape), S.referenceShape = some r →
    (trainLoop cfg bb0 bs S g0 inc batches).state.referenceShape = some r
    ∧ (((trainLoop cfg bb0 bs S g0 inc batches).batchTraces).flatten).countP
        isComputeRefEv = 0
    ∧ Ev.warnRefShape ∉ ((trainLoop cfg bb0 bs S g0 inc batches).batchTraces).flatten := by
  intro batches
  induction batches with
  | nil => intro S g0 inc r h; simp [trainLoop, h]
  | cons b rest ih =>
    intro S g0 inc r h
    have hst : (processBatch cfg S g0 bb0 bs inc b).state.referenceShape = some r := by
      rw [processBatch_state_refShape, resolvedRef_some cfg S _ b r h]
    obtain ⟨ih1, ih2, ih3⟩ := ih (processBatch cfg S g0 bb0 bs inc b).state
      (some (processBatch cfg S g0 bb0 bs inc b).group) true r hst
    refine ⟨ih1, ?_, ?_⟩
    · simp only [trainLoop, List.flatten_cons, List.countP_append, ih2,
        processBatch_countP_computeRef, h]
      simp
    · simp only [trainLoop, List.flatten_cons, List.mem_append]
      rintro (hw | hw)
      · have := (processBatch_warn_mem cfg S g0 bb0 bs inc b).mp hw
        rw [h] at this
        simp at this
      · exact ih3 hw

lemma trainLoop_ref_none {σ : Type} [Inhabited σ] (cfg : SDMConfig σ)
    (bb0 : Option String) (bs : Option ℕ) (b : List Image)
    (rest : List (List Image)) (S : SDMState σ) (g0 : Option String)
    (inc : Bool) (h : S.referenceShape = none) :
    (trainLoop cfg bb0 bs S g0 inc (b :: rest)).state.referenceShape
      = some (cfg.collab.computeReferenceShape
          (b.map (fun i => lookupLm i (resolveGroup g0 b))) cfg.diagonal)
    ∧ (((trainLoop cfg bb0 bs S g0 inc (b :: rest)).batchTraces).flatten).countP
        isComputeRefEv = 1
    ∧ (Ev.warnRefShape ∈ ((trainLoop cfg bb0 bs S g0 inc (b :: rest)).batchTraces).flatten
        ↔ bs ≠ none) := by
  have hval : resolvedRef cfg S (resolveGroup g0 b) b
      = cfg.collab.computeReferenceShape
          (b.map (fun i => lookupLm i (resolveGroup g0 b))) cfg.diagonal :=
    resolvedRef_none cfg S _ b h
  have hst : (processBatch cfg S g0 bb0 bs inc b).state.referenceShape
      = some (cfg.collab.computeReferenceShape
          (b.map (fun i => lookupLm i (resolveGroup g0 b))) cfg.diagonal) := by
    rw [processBatch_state_refShape, hval]
  obtain ⟨ih1, ih2, ih3⟩ := trainLoop_ref_some cfg bb0 bs rest
    (processBatch cfg S g0 bb0 bs inc b).state
    (some (processBatch cfg S g0 bb0 bs inc b).group) true _ hst
  refine ⟨ih1, ?_, ?_⟩
  · simp only [trainLoop, List.flatten_cons, List.countP_append, ih2,
      processBatch_countP_computeRef, h]
    simp
  · simp only [trainLoop, List.flatten_cons, List.mem_append]
    constructor
    · rintro (hw | hw)
      · exact ((processBatch_warn_mem cfg S g0 bb0 bs inc b).mp hw).2
      · exact absurd hw ih3
    · intro hbs
      exact Or.inl ((processBatch_warn_mem cfg S g0 bb0 bs inc b).mpr ⟨h, hbs⟩)

/-- C4: the reference shape is a set-once latch.  If a reference shape is
already stored, no run recomputes it, changes it, or emits the streaming
caveat.  If none is stored, a run whose partition is nonempty computes it
exactly once, as the collaborator statistic over the first batch's raw
(pre-rescale) ground-truth shapes with the configured diagonal, and the
caveat warning is emitted iff `batch_size` is set (fitter.py lines
92-103). -/
theorem C4_reference_shape_latch {σ : Type} [Inhabited σ] (cfg : SDMConfig σ)
    (S : SDMState σ) (images : List Image) (g0 bb0 : Option String)
    (inc : Bool) (bs : Option ℕ) :
    (∀ r, S.referenceShape = some r →
      (SDMtrain cfg S images g0 bb0 inc bs).state.referenceShape = some r
      ∧ (((SDMtrain cfg S images g0 bb0 inc bs).batchTraces).flatten).countP
          isComputeRefEv = 0
      ∧ Ev.warnRefShape ∉ ((SDMtrain cfg S images g0 bb0 inc bs).batchTraces).flatten)
    ∧ (S.referenceShape = none → ∀ b rest, runBatches images bs = b :: rest →
      (SDMtrain cfg S images g0 bb0 inc bs).state.referenceShape
        = some (cfg.collab.computeReferenceShape
            (b.map (fun i => lookupLm i (resolveGroup g0 b))) cfg.diagonal)
      ∧ (((SDMtrain cfg S images g0 bb0 inc bs).batchTraces).flatten).countP
          isComputeRefEv = 1
      ∧ (Ev.warnRefShape ∈ ((SDMtrain cfg S images g0 bb0 inc bs).batchTraces).flatten
          ↔ bs ≠ none)) := by
  constructor
  · intro r h
    exact trainLoop_ref_some cfg bb0 bs (runBatches images bs) S g0 inc r h
  · intro h b rest hbr
    have := trainLoop_ref_none cfg bb0 bs b rest S g0 inc h
    simpa [SDMtrain, hbr] using this

/-- A concrete state that already carries a reference shape. -/
def Sref : SDMState Unit := ⟨some [(9, 9)], 2, [()]⟩

/-- Witness for C4: a concrete streaming run with no stored reference
shape computes it once from the first one-image batch and warns; a
concrete run with a stored reference shape keeps it, never recomputes and
never warns. -/
theorem C4_witness :
    ((SDMtrain cfg1 S0 [img0, img1] none none false (some 1)).state.referenceShape
      = some [(0, 0), (2, 1)])
    ∧ ((((SDMtrain cfg1 S0 [img0, img1] none none false (some 1)).batchTraces).flatten).countP
        isComputeRefEv = 1)
    ∧ (Ev.warnRefShape
        ∈ ((SDMtrain cfg1 S0 [img0, img1] none none false (some 1)).batchTraces).flatten)
    ∧ ((SDMtrain cfg1 Sref [img0] none none false none).state.referenceShape
        = some [(9, 9)])
    ∧ ((((SDMtrain cfg1 Sref [img0] none none false none).batchTraces).flatten).countP
        isComputeRefEv = 0)
    ∧ (Ev.warnRefShape
        ∉ ((SDMtrain cfg1 Sref [img0] none none false none).batchTraces).flatten) := by
  have h1 := (C4_reference_shape_latch cfg1 S0 [img0, img1] none none false
    (some 1)).2 rfl [img0] [[img1]] rfl
  have h2 := (C4_reference_shape_latch cfg1 Sref [img0] none none false
    none).1 [(9, 9)] rfl
  refine ⟨?_, h1.2.1, h1.2.2.mpr (by decide), h2.1, h2.2.1, h2.2.2⟩
  rw [h1.1]
  decide

lemma scaleStep_trace_feat {σ : Type} [Inhabited σ] (cfg : SDMConfig σ)
    (group : String) (keys : List String) (ref : Shape) (inc : Bool)
    (batch : List Image) (j : ℕ) (prev : List Image) (algs : List σ)
    (cur : List (List Shape)) :
    ((scaleStep cfg group keys ref inc batch j prev algs cur).trace).filter
        isComputeFeatEv
      = if recompute cfg j then [Ev.computeFeaturesEv (featuresAt cfg j).fid]
        else [] := by
  simp only [scaleStep, List.filter_append]
  have h1 : ((if recompute cfg j
        then [Ev.computeFeaturesEv (featuresAt cfg j).fid] else []).filter
        isComputeFeatEv)
      = if recompute cfg j then [Ev.computeFeaturesEv (featuresAt cfg j).fid]
        else [] := by
    split <;> rfl
  have h2 : ((if scaleAt cfg j ≠ 1
        then [Ev.scaleImagesEv (scaleAt cfg j)] else []).filter isComputeFeatEv)
      = [] := by
    split <;> rfl
  have h3 : (([if inc then Ev.stageIncrement j else Ev.stageTrain j]).filter
        isComputeFeatEv) = [] := by
    cases inc <;> rfl
  have h4 : ((if j ≠ cfg.scales.length - 1
        then [Ev.applyScaleTransform j (scaleAt cfg (j + 1) / scaleAt cfg j)]
        else []).filter isComputeFeatEv) = [] := by
    split <;> rfl
  rw [h1, h2, h3, h4]
  simp

lemma scaleLoopFrom_trace_feat {σ : Type} [Inhabited σ] (cfg : SDMConfig σ)
    (group : String) (keys : List String) (ref : Shape) (inc : Bool)
    (batch : List Image) (fuel : ℕ) : ∀ (j : ℕ) (prev : List Image)
    (algs : List σ) (cur : List (List Shape)),
    ((scaleLoopFrom cfg group keys ref inc batch fuel j prev algs cur).trace).filter
        isComputeFeatEv
      = ((List.range' j fuel).filter (fun i => recompute cfg i)).map
          (fun i => Ev.computeFeaturesEv (featuresAt cfg i).fid) := by
  induction fuel with
  | zero => intro j prev algs cur; simp [scaleLoopFrom]
  | succ n ih =>
    intro j prev algs cur
    simp only [scaleLoopFrom, List.filter_append, List.range'_succ,
      scaleStep_trace_feat, ih, List.filter_cons]
    split <;> simp

/-- C5: feature extraction runs at scale `j` of a batch exactly when
`j = 0` or the configured feature function at `j` is not identical (by
the `fid` identity tag) to the one at `j - 1` (fitter.py lines 172-180);
when the guard is false the scale reuses the previously computed feature
images unchanged; and for a two-scale configuration whose scales share
the feature function, feature extraction runs exactly once per batch. -/
theorem C5_feature_reuse {σ : Type} [Inhabited σ] (cfg : SDMConfig σ)
    (S : SDMState σ) (g0 bb0 : Option String) (bs : Option ℕ) (inc : Bool)
    (batch : List Image) (group : String) (keys : List String) (ref : Shape)
    (prev : List Image) (algs : List σ) (cur : List (List Shape)) (j : ℕ) :
    (((scaleLoopFrom cfg group keys ref inc batch cfg.scales.length 0 prev algs
        cur).trace).filter isComputeFeatEv
      = ((List.range' 0 cfg.scales.length).filter (fun i => recompute cfg i)).map
          (fun i => Ev.computeFeaturesEv (featuresAt cfg i).fid))
    ∧ (recompute cfg j = false → featImgsAt cfg batch j prev = prev)
    ∧ (cfg.scales.length = 2 → (featuresAt cfg 1).fid = (featuresAt cfg 0).fid →
        ((processBatch cfg S g0 bb0 bs inc batch).trace).countP isComputeFeatEv
          = 1) := by
  refine ⟨scaleLoopFrom_trace_feat cfg group keys ref inc batch _ 0 prev algs cur,
    ?_, ?_⟩
  · intro h
    simp [featImgsAt, h]
  · intro hn hf
    simp only [processBatch, List.countP_append]
    rw [countP_eq_zero_of_filter_nil
        (refTrace_filter_nil _ _ isComputeFeatEv rfl rfl),
      countP_eq_zero_of_filter_nil
        (resolveBBGroup_filter_nil _ _ _ isComputeFeatEv (fun _ _ => rfl)),
      countP_eq_zero_of_filter_nil
        (resolvePerturbations_filter_nil _ _ _ _ _ _ isComputeFeatEv
          (fun _ _ => rfl) (fun _ _ => rfl) (fun _ _ => rfl)),
      List.countP_eq_length_filter, scaleLoopFrom_trace_feat]
    rw [hn]
    have hr0 : recompute cfg 0 = true := rfl
    have hr1 : recompute cfg 1 = false := by
      simp [recompute, hf]
    simp [List.range', hr0, hr1]

/-- A two-scale concrete configuration whose scales share one feature
function object (identity tag 7). -/
def cfg2 : SDMConfig Unit :=
  ⟨[(1 : ℚ) / 2, 1], [⟨7, id⟩, ⟨7, id⟩], none,
   fun _ bb => bb.map (fun p => (p.1 + 1, p.2)),
   collabTriv⟩

/-- A concrete initial state with two stages. -/
def S2sc : SDMState Unit := ⟨none, 2, [(), ()]⟩

/-- Witness for C5 on a concrete two-scale shared-feature run: exactly
one feature extraction per batch, the loop trace's feature events are as
computed by the guard, and the guarded reuse returns the carried images. -/
theorem C5_witness :
    (((scaleLoopFrom cfg2 "face" ["__gt_bb_0"] [(0, 0)] false [img0]
        cfg2.scales.length 0 [img0] [(), ()] []).trace).filter isComputeFeatEv
      = [Ev.computeFeaturesEv 7])
    ∧ (featImgsAt cfg2 [img1] 1 [img0] = [img0])
    ∧ (((processBatch cfg2 S2sc none none none false [img0]).trace).countP
        isComputeFeatEv = 1) := by
  have h := C5_feature_reuse cfg2 S2sc none none none false [img0] "face"
    ["__gt_bb_0"] [(0, 0)] [img0] [(), ()] [] 1
  refine ⟨?_, ?_, h.2.2 (by decide) rfl⟩
  · rw [h.1]
    decide
  · exact (C5_feature_reuse cfg2 S2sc none none none false [img1] "face"
      ["__gt_bb_0"] [(0, 0)] [img0] [(), ()] [] 1).2.1 (by decide)

lemma scaleStep_trace_apply {σ : Type} [Inhabited σ] (cfg : SDMConfig σ)
    (group : String) (keys : List String) (ref : Shape) (inc : Bool)
    (batch : List Image) (j : ℕ) (prev : List Image) (algs : List σ)
    (cur : List (List Shape)) :
    ((scaleStep cfg group keys ref inc batch j prev algs cur).trace).filter
        isApplyTransformEv
      = if j ≠ cfg.scales.length - 1
        then [Ev.applyScaleTransform j (scaleAt cfg (j + 1) / scaleAt cfg j)]
        else [] := by
  simp only [scaleStep, List.filter_append]
  have h1 : ((if recompute cfg j
        then [Ev.computeFeaturesEv (featuresAt cfg j).fid] else []).filter
        isApplyTransformEv) = [] := by
    split <;> rfl
  have h2 : ((if scaleAt cfg j ≠ 1
        then [Ev.scaleImagesEv (scaleAt cfg j)] else []).filter
        isApplyTransformEv) = [] := by
    split <;> rfl
  have h3 : (([if inc then Ev.stageIncrement j else Ev.stageTrain j]).filter
        isApplyTransformEv) = [] := by
    cases inc <;> rfl
  have h4 : ((if j ≠ cfg.scales.length - 1
        then [Ev.applyScaleTransform j (scaleAt cfg (j + 1) / scaleAt cfg j)]
        else []).filter isApplyTransformEv)
      = if j ≠ cfg.scales.length - 1
        then [Ev.applyScaleTransform j (scaleAt cfg (j + 1) / scaleAt cfg j)]
        else [] := by
    split <;> rfl
  rw [h1, h2, h3, h4]
  simp

lemma scaleLoopFrom_trace_apply {σ : Type} [Inhabited σ] (cfg : SDMConfig σ)
    (group : String) (keys : List String) (ref : Shape) (inc : Bool)
    (batch : List Image) (fuel : ℕ) : ∀ (j : ℕ) (prev : List Image)
    (algs : List σ) (cur : List (List Shape)),
    ((scaleLoopFrom cfg group keys ref inc batch fuel j prev algs cur).trace).filter
        isApplyTransformEv
      = ((List.range' j fuel).filter (fun i => i ≠ cfg.scales.length - 1)).map
          (fun i => Ev.applyScaleTransform i (scaleAt cfg (i + 1) / scaleAt cfg i)) := by
  induction fuel with
  | zero => intro j prev algs cur; simp [scaleLoopFrom]
  | succ n ih =>
    intro j prev algs cur
    simp only [scaleLoopFrom, List.filter_append, List.range'_succ,
      scaleStep_trace_apply, ih, List.filter_cons]
    split <;> rename_i h <;> simp [h]

lemma range'_filter_ne_last (m : ℕ) :
    ((List.range' 0 (m + 1)).filter (fun i => i ≠ m)) = List.range' 0 m := by
  rw [List.range'_1_concat, List.filter_append]
  have h1 : (List.range' 0 m).filter (fun i => i ≠ m) = List.range' 0 m := by
    rw [List.filter_eq_self]
    intro x hx
    rw [List.mem_range'_1] at hx
    simp
    omega
  have h2 : ([0 + m] : List ℕ).filter (fun i => i ≠ m) = [] := by
    simp
  rw [h1, h2, List.append_nil]

/-- C6: after every non-final scale `j` (`j + 1 < n_scales`) the batch's
shape estimates are exactly the stage's output with every shape rescaled
by the isotropic ratio `scales[j+1] / scales[j]` before the next scale
consumes them; after the final scale the stage output is left
untransformed; and a whole batch performs exactly one such transform per
non-final scale, with those ratios (fitter.py lines 219-226). -/
theorem C6_cross_scale_transform {σ : Type} [Inhabited σ] (cfg : SDMConfig σ)
    (group : String) (keys : List String) (ref : Shape) (inc : Bool)
    (batch : List Image) (j : ℕ) (prev : List Image) (algs : List σ)
    (cur : List (List Shape)) (m : ℕ) (hm : cfg.scales.length = m + 1) :
    (j + 1 < cfg.scales.length →
      (scaleStep cfg group keys ref inc batch j prev algs cur).cur
        = ((stageAt cfg group keys ref inc batch j prev algs cur).2).map
            (fun cs => cs.map (scaleShape (scaleAt cfg (j + 1) / scaleAt cfg j))))
    ∧ (j = cfg.scales.length - 1 →
      (scaleStep cfg group keys ref inc batch j prev algs cur).cur
        = (stageAt cfg group keys ref inc batch j prev algs cur).2)
    ∧ (((scaleLoopFrom cfg group keys ref inc batch cfg.scales.length 0 prev algs
          cur).trace).filter isApplyTransformEv
        = (List.range' 0 m).map
            (fun i => Ev.applyScaleTransform i (scaleAt cfg (i + 1) / scaleAt cfg i))) := by
  refine ⟨?_, ?_, ?_⟩
  · intro hlt
    have hne : j ≠ cfg.scales.length - 1 := by omega
    simp only [scaleStep, if_pos hne]
  · intro heq
    have hne : ¬(j ≠ cfg.scales.length - 1) := by omega
    simp only [scaleStep, if_neg hne]
  · rw [scaleLoopFrom_trace_apply, hm]
    simp only [Nat.add_sub_cancel]
    rw [range'_filter_ne_last]

/-- Witness for C6 on the concrete two-scale configuration (scales 1/2
then 1): the non-final scale's output estimates are the stage output
rescaled by ratio 2, and the batch performs exactly one cross-scale
transform, with ratio 2 after scale 0. -/
theorem C6_witness :
    ((scaleStep cfg2 "face" ["face"] [(0, 0)] false [img0] 0 [img0] [(), ()]
        []).cur = [[[(0, 0), (4, 2)]]])
    ∧ (((scaleLoopFrom cfg2 "face" ["face"] [(0, 0)] false [img0]
        cfg2.scales.length 0 [img0] [(), ()] []).trace).filter isApplyTransformEv
      = [Ev.applyScaleTransform 0 2]) := by
  have hr : scaleAt cfg2 (0 + 1) / scaleAt cfg2 0 = 2 := by
    norm_num [scaleAt, cfg2]
  have h := C6_cross_scale_transform cfg2 "face" ["face"] [(0, 0)] false [img0]
    0 [img0] [(), ()] [] 1 (by norm_num [cfg2])
  constructor
  · rw [h.1 (by norm_num [cfg2]), hr]
    simp [stageAt, scaledAt, featImgsAt, recompute, featuresAt, scaleAt, cfg2,
      collabTriv, algTriv, stageCall, curSeededAt, seedShapes, keysMatching,
      lookupLm, img0, scaleShape, groupLabels, strContains]
    norm_num
  · rw [h.2.2]
    simp only [List.range', List.map]
    rw [hr]

lemma countP_perturb_flatMap (i : ℕ) (bbGroup : String) (G B : Shape)
    (js : List ℕ) :
    (js.flatMap (fun j => [Ev.perturbCall G B,
      Ev.attach i (perturbKey bbGroup j)])).countP isPerturbEv = js.length := by
  induction js with
  | nil => rfl
  | cons j t ih => simp [List.flatMap_cons, List.countP_append, ih, isPerturbEv,
      List.countP_cons]

lemma countP_flatten_const (p : Ev → Bool) (c : ℕ) (ls : List (List Ev))
    (h : ∀ l ∈ ls, l.countP p = c) : ls.flatten.countP p = ls.length * c := by
  induction ls with
  | nil => simp
  | cons l t ih =>
    simp only [List.flatten_cons, List.countP_append, List.length_cons]
    rw [h l (by simp), ih (fun x hx => h x (by simp [hx]))]
    ring

lemma perturbImage_trace (f : Shape → Shape → Shape) (k : ℕ)
    (group seedKey bbGroup : String) (i : Image)
    (hg : ∀ j ∈ List.range' 1 (k - 1), perturbKey bbGroup j ≠ group)
    (hs : ∀ j ∈ List.range' 1 (k - 1), perturbKey bbGroup j ≠ seedKey) :
    (perturbImage f k group seedKey bbGroup i).2
      = (List.range' 1 (k - 1)).flatMap (fun j =>
          [Ev.perturbCall (boundingBox (lookupLm i group)) (lookupLm i seedKey),
           Ev.attach i.iid (perturbKey bbGroup j)]) := by
  have := perturbFold_snd f group seedKey bbGroup (List.range' 1 (k - 1)) i [] hg hs
  simpa [perturbImage, perturbStepJ, perturbKey] using this

/-- C2 (amended): for a batch with exactly one bounding box (key
`seedKey`) under the resolved namespace and configured count `k`, the
reconciliation synthesizes exactly `k - 1` noisy boxes per image via the
strategy (none for `k = 1`), keyed `bbGroup_j` for `j = 1 .. k-1`, and
leaves the stored count unchanged; provided those synthesized keys do not
collide with the seed key (as in the auto-generated namespace), the seed
box itself is never overwritten, and the reference shape aligned to the
unperturbed seed box appears among the image's seeded current-shape
estimates (fitter.py lines 129-147 and 199-207). -/
theorem C2_perturbation_synthesis {σ : Type} (C : Collab σ)
    (f : Shape → Shape → Shape) (S : SDMState σ)
    (group bbGroup seedKey : String) (working : List Image) (ref : Shape)
    (hs : ∀ j ∈ List.range' 1 (S.nPerturbations - 1),
      perturbKey bbGroup j ≠ seedKey)
    (hg : ∀ j ∈ List.range' 1 (S.nPerturbations - 1),
      perturbKey bbGroup j ≠ group) :
    (((resolvePerturbations f S group bbGroup [seedKey] working).2.2).countP
        isPerturbEv = working.length * (S.nPerturbations - 1))
    ∧ (resolvePerturbations f S group bbGroup [seedKey] working).1 = S
    ∧ (resolvePerturbations f S group bbGroup [seedKey] working).2.1
        = working.map
            (fun i => (perturbImage f S.nPerturbations group seedKey bbGroup i).1)
    ∧ (∀ i ∈ working,
        lookupLm (perturbImage f S.nPerturbations group seedKey bbGroup i).1 seedKey
          = lookupLm i seedKey
        ∧ (∀ j ∈ List.range' 1 (S.nPerturbations - 1), perturbKey bbGroup j
            ∈ groupLabels (perturbImage f S.nPerturbations group seedKey bbGroup i).1)
        ∧ (seedKey ∈ keysMatching i bbGroup →
            C.alignShapeWithBoundingBox ref (lookupLm i seedKey)
              ∈ ((seedShapes C ref
                  (keysMatching
                    (perturbImage f S.nPerturbations group seedKey bbGroup i).1
                    bbGroup)
                  [(perturbImage f S.nPerturbations group seedKey bbGroup i).1]).headD
                  []))) := by
  have hone := resolvePerturbations_of_one f S group bbGroup [seedKey] working rfl
  have hhead : (([seedKey] : List String).headD "") = seedKey := rfl
  rw [hhead] at hone
  refine ⟨?_, ?_, ?_, ?_⟩
  · rw [hone]
    have hc : ∀ l ∈ (working.map (perturbImage f S.nPerturbations group seedKey
        bbGroup)).map Prod.snd, l.countP isPerturbEv = S.nPerturbations - 1 := by
      intro l hl
      simp only [List.map_map, List.mem_map, Function.comp] at hl
      obtain ⟨i, _, rfl⟩ := hl
      rw [perturbImage_trace f S.nPerturbations group seedKey bbGroup i hg hs,
        countP_perturb_flatMap]
      simp
    rw [countP_flatten_const isPerturbEv (S.nPerturbations - 1) _ hc]
    simp
  · rw [hone]
  · rw [hone]
    simp [List.map_map, Function.comp]
  · intro i hi
    obtain ⟨h1, h2, h3, h5, h6⟩ := perturbFold_fst f group seedKey bbGroup
      (List.range' 1 (S.nPerturbations - 1)) i [] hg hs
    refine ⟨h3, h6, ?_⟩
    intro hseed
    have hlab : seedKey ∈ groupLabels
        (perturbImage f S.nPerturbations group seedKey bbGroup i).1 := by
      apply h5
      exact (List.mem_filter.mp hseed).1
    have hmatch : seedKey ∈ keysMatching
        (perturbImage f S.nPerturbations group seedKey bbGroup i).1 bbGroup := by
      rw [keysMatching, List.mem_filter]
      exact ⟨hlab, (List.mem_filter.mp hseed).2⟩
    simp only [seedShapes, List.map_cons, List.map_nil, List.headD_cons]
    rw [← h3]
    exact List.mem_map_of_mem _ hmatch

/-- A configuration whose perturbation strategy returns the constant
shape [(7,7)]. -/
def cfgC2 : SDMConfig Unit :=
  ⟨[1], [⟨5, id⟩], none, fun _ _ => [(7, 7)], collabTriv⟩

/-- A caller image whose single supplied bounding box sits under the
colliding key "bb_1" of the namespace "bb". -/
def imgc : Image := ⟨0, [("face", [(0, 0), (2, 1)]), ("bb_1", [(5, 5)])]⟩

/-- A caller image whose single supplied bounding box sits under the
non-colliding key "bb_x" of the namespace "bb". -/
def imgw : Image := ⟨0, [("face", [(0, 0), (2, 1)]), ("bb_x", [(5, 5)])]⟩

/-- A concrete state requesting two perturbations. -/
def Sc : SDMState Unit := ⟨none, 2, [()]⟩

/-- Counterexample to C2 as stated: with exactly one box under namespace
"bb" stored at key "bb_1" and k = 2, the synthesized key of iteration 1
is also "bb_1", so the seed box is overwritten by the perturbation, and
the shape aligned to the unperturbed seed box does not appear among the
image's current-shape estimates. -/
theorem C2_counterexample :
    (batchBBKeys cfgC2 Sc none (some "bb") [imgc] = ["bb_1"])
    ∧ Sc.nPerturbations = 2
    ∧ lookupLm (((processBatch cfgC2 Sc none (some "bb") none false
        [imgc]).working).headD default) "bb_1" = [(7, 7)]
    ∧ lookupLm imgc "bb_1" = [(5, 5)]
    ∧ ¬ (([(5, 5)] : Shape)
        ∈ (((processBatch cfgC2 Sc none (some "bb") none false
            [imgc]).traj).headD []).flatten) := by
  decide

/-- Witness for the amended C2 at a non-colliding seed key: one strategy
call, unchanged state, seed box preserved, and the aligned seed shape
among the seeded estimates. -/
theorem C2_witness :
    (((resolvePerturbations (fun _ _ => [(7, 7)]) Sc "face" "bb" ["bb_x"]
        [imgw]).2.2).countP isPerturbEv = 1)
    ∧ (resolvePerturbations (fun _ _ => [(7, 7)]) Sc "face" "bb" ["bb_x"]
        [imgw]).1 = Sc
    ∧ lookupLm (perturbImage (fun _ _ => [(7, 7)]) Sc.nPerturbations "face"
        "bb_x" "bb" imgw).1 "bb_x" = [(5, 5)]
    ∧ (([(5, 5)] : Shape) ∈ ((seedShapes collabTriv [(0, 0)]
        (keysMatching (perturbImage (fun _ _ => [(7, 7)]) Sc.nPerturbations
          "face" "bb_x" "bb" imgw).1 "bb")
        [(perturbImage (fun _ _ => [(7, 7)]) Sc.nPerturbations "face" "bb_x"
          "bb" imgw).1]).headD [])) := by
  have h := C2_perturbation_synthesis collabTriv (fun _ _ => [(7, 7)]) Sc
    "face" "bb" "bb_x" [imgw] [(0, 0)] (by decide) (by decide)
  have hi := h.2.2.2 imgw (by simp)
  have hm := hi.2.2 (by decide)
  have he : collabTriv.alignShapeWithBoundingBox [(0, 0)]
      (lookupLm imgw "bb_x") = ([(5, 5)] : Shape) := by decide
  refine ⟨?_, h.2.1, ?_, he ▸ hm⟩
  · rw [h.1]
    decide
  · rw [hi.1]
    decide

lemma filter_perturb_flatMap (i : ℕ) (bbGroup : String) (G B : Shape)
    (js : List ℕ) :
    (js.flatMap (fun j => [Ev.perturbCall G B,
      Ev.attach i (perturbKey bbGroup j)])).filter isPerturbEv
      = List.replicate js.length (Ev.perturbCall G B) := by
  induction js with
  | nil => rfl
  | cons j t ih =>
    simp only [List.flatMap_cons, List.filter_append, ih, List.length_cons,
      List.replicate_succ]
    rfl

/-- Counterexample to C7 as stated: on a concrete image whose
ground-truth shape is the two-point shape [(0,0),(2,1)], the single
perturbation-strategy call receives the four-corner bounding box of that
shape as its first argument, which differs from the ground-truth shape
itself. -/
theorem C7_counterexample :
    (((resolvePerturbations (fun _ _ => [(7, 7)]) Sc "face" "bb" ["bb_x"]
        [imgw]).2.2).filter isPerturbEv
      = [Ev.perturbCall [(0, 0), (2, 0), (2, 1), (0, 1)] [(5, 5)]])
    ∧ lookupLm imgw "face" = [(0, 0), (2, 1)]
    ∧ (([(0, 0), (2, 0), (2, 1), (0, 1)] : Shape) ≠ [(0, 0), (2, 1)]) := by
  decide

/-- C7 (amended): every perturbation generated from a single seed box
invokes the pluggable strategy with the bounding box of the image's
ground-truth shape as its first argument and the seed bounding box as its
second, returning one noisy shape per call: the strategy calls of the
batch are exactly `n_perturbations - 1` copies per image of
`perturbCall (boundingBox gt_shape) seed_box` (fitter.py lines 140-145). -/
theorem C7_perturb_arguments {σ : Type} (f : Shape → Shape → Shape)
    (S : SDMState σ) (group bbGroup seedKey : String) (working : List Image)
    (hs : ∀ j ∈ List.range' 1 (S.nPerturbations - 1),
      perturbKey bbGroup j ≠ seedKey)
    (hg : ∀ j ∈ List.range' 1 (S.nPerturbations - 1),
      perturbKey bbGroup j ≠ group) :
    ((resolvePerturbations f S group bbGroup [seedKey] working).2.2).filter
        isPerturbEv
      = working.flatMap (fun i => List.replicate (S.nPerturbations - 1)
          (Ev.perturbCall (boundingBox (lookupLm i group))
            (lookupLm i seedKey))) := by
  have hone := resolvePerturbations_of_one f S group bbGroup [seedKey] working rfl
  have hhead : (([seedKey] : List String).headD "") = seedKey := rfl
  rw [hhead] at hone
  rw [hone, List.filter_flatten, List.flatMap_def]
  congr 1
  simp only [List.map_map]
  apply List.map_congr_left
  intro i _
  simp only [Function.comp]
  rw [perturbImage_trace f S.nPerturbations group seedKey bbGroup i hg hs,
    filter_perturb_flatMap]
  simp

/-- Witness for the amended C7: the concrete strategy-call trace equals
one copy of `perturbCall` applied to the bounding box of the ground-truth
shape and the seed box. -/
theorem C7_witness :
    ((resolvePerturbations (fun _ _ => [(7, 7)]) Sc "face" "bb" ["bb_x"]
        [imgw]).2.2).filter isPerturbEv
      = [Ev.perturbCall (boundingBox (lookupLm imgw "face"))
          (lookupLm imgw "bb_x")] := by
  rw [C7_perturb_arguments (fun _ _ => [(7, 7)]) Sc "face" "bb" "bb_x" [imgw]
    (by decide) (by decide)]
  decide

lemma seedShapes_counts {σ : Type} (C : Collab σ) (ref : Shape)
    (keys : List String) (scaled : List Image) :
    (seedShapes C ref keys scaled).map List.length
      = List.replicate scaled.length keys.length := by
  rw [List.eq_replicate_iff]
  refine ⟨by simp [seedShapes], ?_⟩
  intro b hb
  simp only [seedShapes, List.map_map, List.mem_map, Function.comp] at hb
  obtain ⟨i, _, rfl⟩ := hb
  simp

lemma map_length_map_scale (r : ℚ) (l : List (List Shape)) :
    (l.map (fun cs => cs.map (scaleShape r))).map List.length
      = l.map List.length := by
  simp [List.map_map, Function.comp]

lemma stageCall_counts {σ : Type} (C : Collab σ) (inc : Bool) (a : σ)
    (imgs : List Image) (shps : List Shape) (cur : List (List Shape))
    (htr : ∀ (a : σ) (imgs : List Image) (shps : List Shape)
      (cur : List (List Shape)),
      ((C.trainAlg a imgs shps cur).2).map List.length = cur.map List.length)
    (hin : ∀ (a : σ) (imgs : List Image) (shps : List Shape)
      (cur : List (List Shape)),
      ((C.incrementAlg a imgs shps cur).2).map List.length = cur.map List.length) :
    ((stageCall C inc a imgs shps cur).2).map List.length
      = cur.map List.length := by
  cases inc
  · exact htr a imgs shps cur
  · exact hin a imgs shps cur

lemma scaleStep_cur_counts {σ : Type} [Inhabited σ] (cfg : SDMConfig σ)
    (group : String) (keys : List String) (ref : Shape) (inc : Bool)
    (batch : List Image) (j : ℕ) (prev : List Image) (algs : List σ)
    (cur : List (List Shape))
    (htr : ∀ (a : σ) (imgs : List Image) (shps : List Shape)
      (cur : List (List Shape)),
      ((cfg.collab.trainAlg a imgs shps cur).2).map List.length
        = cur.map List.length)
    (hin : ∀ (a : σ) (imgs : List Image) (shps : List Shape)
      (cur : List (List Shape)),
      ((cfg.collab.incrementAlg a imgs shps cur).2).map List.length
        = cur.map List.length) :
    ((scaleStep cfg group keys ref inc batch j prev algs cur).cur).map List.length
      = ((scaleStep cfg group keys ref inc batch j prev algs cur).seeded).map
          List.length := by
  simp only [scaleStep, stageAt]
  split
  · rw [map_length_map_scale]
    exact stageCall_counts _ _ _ _ _ _ htr hin
  · exact stageCall_counts _ _ _ _ _ _ htr hin

lemma scaleStep_seeded_of_pos {σ : Type} [Inhabited σ] (cfg : SDMConfig σ)
    (group : String) (keys : List String) (ref : Shape) (inc : Bool)
    (batch : List Image) (j : ℕ) (prev : List Image) (algs : List σ)
    (cur : List (List Shape)) (hj : j ≠ 0) :
    (scaleStep cfg group keys ref inc batch j prev algs cur).seeded = cur := by
  simp [scaleStep, curSeededAt, hj]

lemma scaleLoopFrom_counts_from {σ : Type} [Inhabited σ] (cfg : SDMConfig σ)
    (group : String) (keys : List String) (ref : Shape) (inc : Bool)
    (batch : List Image) (m K : ℕ)
    (htr : ∀ (a : σ) (imgs : List Image) (shps : List Shape)
      (cur : List (List Shape)),
      ((cfg.collab.trainAlg a imgs shps cur).2).map List.length
        = cur.map List.length)
    (hin : ∀ (a : σ) (imgs : List Image) (shps : List Shape)
      (cur : List (List Shape)),
      ((cfg.collab.incrementAlg a imgs shps cur).2).map List.length
        = cur.map List.length) (fuel : ℕ) :
    ∀ (j : ℕ), j ≠ 0 → ∀ (prev : List Image) (algs : List σ)
      (cur : List (List Shape)),
      cur.map List.length = List.replicate m K →
    (∀ t ∈ (scaleLoopFrom cfg group keys ref inc batch fuel j prev algs cur).traj,
      t.map List.length = List.replicate m K)
    ∧ ((scaleLoopFrom cfg group keys ref inc batch fuel j prev algs cur).cur).map
        List.length = List.replicate m K := by
  induction fuel with
  | zero =>
    intro j hj prev algs cur hcur
    exact ⟨by simp [scaleLoopFrom], by simpa [scaleLoopFrom] using hcur⟩
  | succ n ih =>
    intro j hj prev algs cur hcur
    have hseed := scaleStep_seeded_of_pos cfg group keys ref inc batch j prev
      algs cur hj
    have hstep := scaleStep_cur_counts cfg group keys ref inc batch j prev algs
      cur htr hin
    rw [hseed, hcur] at hstep
    obtain ⟨ih1, ih2⟩ := ih (j + 1) (by omega)
      (scaleStep cfg group keys ref inc batch j prev algs cur).featImgs
      (scaleStep cfg group keys ref inc batch j prev algs cur).algs
      (scaleStep cfg group keys ref inc batch j prev algs cur).cur hstep
    refine ⟨?_, ih2⟩
    intro t ht
    simp only [scaleLoopFrom, List.mem_cons] at ht
    rcases ht with rfl | ht
    · rw [hseed, hcur]
    · exact ih1 t ht

lemma scaledAt_zero_length {σ : Type} (cfg : SDMConfig σ) (batch prev : List Image)
    (hfeat : ∀ imgs, ((featuresAt cfg 0).apply imgs).length = imgs.length)
    (hscale : ∀ imgs s, (cfg.collab.scaleImages imgs s).length = imgs.length) :
    (scaledAt cfg batch 0 prev).length = batch.length := by
  simp only [scaledAt, featImgsAt]
  have hr : recompute cfg 0 = true := rfl
  rw [hr]
  simp only [if_true]
  split
  · rw [hscale, hfeat]
  · exact hfeat batch

lemma scaleLoopFrom_counts_zero {σ : Type} [Inhabited σ] (cfg : SDMConfig σ)
    (group : String) (keys : List String) (ref : Shape) (inc : Bool)
    (batch : List Image) (nm : ℕ) (prev : List Image) (algs : List σ)
    (htr : ∀ (a : σ) (imgs : List Image) (shps : List Shape)
      (cur : List (List Shape)),
      ((cfg.collab.trainAlg a imgs shps cur).2).map List.length
        = cur.map List.length)
    (hin : ∀ (a : σ) (imgs : List Image) (shps : List Shape)
      (cur : List (List Shape)),
      ((cfg.collab.incrementAlg a imgs shps cur).2).map List.length
        = cur.map List.length)
    (hfeat : ∀ imgs, ((featuresAt cfg 0).apply imgs).length = imgs.length)
    (hscale : ∀ imgs s, (cfg.collab.scaleImages imgs s).length = imgs.length) :
    (∀ t ∈ (scaleLoopFrom cfg group keys ref inc batch (nm + 1) 0 prev algs
        []).traj,
      t.map List.length = List.replicate batch.length keys.length)
    ∧ ((scaleLoopFrom cfg group keys ref inc batch (nm + 1) 0 prev algs
        []).cur).map List.length
      = List.replicate batch.length keys.length := by
  have hseed : (scaleStep cfg group keys ref inc batch 0 prev algs []).seeded
      = seedShapes cfg.collab ref keys (scaledAt cfg batch 0 prev) := by
    simp [scaleStep, curSeededAt]
  have hslen : ((scaleStep cfg group keys ref inc batch 0 prev algs
      []).seeded).map List.length = List.replicate batch.length keys.length := by
    rw [hseed, seedShapes_counts, scaledAt_zero_length cfg batch prev hfeat hscale]
  have hcur : ((scaleStep cfg group keys ref inc batch 0 prev algs
      []).cur).map List.length = List.replicate batch.length keys.length := by
    rw [scaleStep_cur_counts cfg group keys ref inc batch 0 prev algs [] htr hin]
    exact hslen
  obtain ⟨ih1, ih2⟩ := scaleLoopFrom_counts_from cfg group keys ref inc batch
    batch.length keys.length htr hin nm 1 (by omega)
    (scaleStep cfg group keys ref inc batch 0 prev algs []).featImgs
    (scaleStep cfg group keys ref inc batch 0 prev algs []).algs
    (scaleStep cfg group keys ref inc batch 0 prev algs []).cur hcur
  constructor
  · intro t ht
    simp only [scaleLoopFrom, List.mem_cons] at ht
    rcases ht with rfl | ht
    · exact hslen
    · exact ih1 t ht
  · exact ih2

/-- C8: within a batch, under the spec's collaborator contracts
(cascade-stage `train` / `increment` return one estimate list per image
with the same per-image count they received, and feature extraction and
image scaling are per-image), the estimates handed to every scale's stage
and the final estimates hold, for every image of the working batch, the
same number of shapes, equal to that batch's perturbation count — the
number of bounding-box keys matching the resolved namespace on the first
working image (fitter.py lines 156-159 and 199-217). -/
theorem C8_estimate_count_invariant {σ : Type} [Inhabited σ] (cfg : SDMConfig σ)
    (S : SDMState σ) (g0 bb0 : Option String) (bs : Option ℕ) (inc : Bool)
    (batch : List Image)
    (htr : ∀ (a : σ) (imgs : List Image) (shps : List Shape)
      (cur : List (List Shape)),
      ((cfg.collab.trainAlg a imgs shps cur).2).map List.length
        = cur.map List.length)
    (hin : ∀ (a : σ) (imgs : List Image) (shps : List Shape)
      (cur : List (List Shape)),
      ((cfg.collab.incrementAlg a imgs shps cur).2).map List.length
        = cur.map List.length)
    (hfeat : ∀ imgs, ((featuresAt cfg 0).apply imgs).length = imgs.length)
    (hscale : ∀ imgs s, (cfg.collab.scaleImages imgs s).length = imgs.length)
    (nm : ℕ) (hn : cfg.scales.length = nm + 1) :
    (∀ t ∈ (processBatch cfg S g0 bb0 bs inc batch).traj,
      t.map List.length
        = List.replicate ((processBatch cfg S g0 bb0 bs inc batch).working.length)
            (keysMatching
              (((processBatch cfg S g0 bb0 bs inc batch).working).headD default)
              (bbGroupName bb0)).length)
    ∧ ((processBatch cfg S g0 bb0 bs inc batch).cur).map List.length
      = List.replicate ((processBatch cfg S g0 bb0 bs inc batch).working.length)
          (keysMatching
            (((processBatch cfg S g0 bb0 bs inc batch).working).headD default)
            (bbGroupName bb0)).length := by
  simp only [processBatch, hn]
  exact scaleLoopFrom_counts_zero cfg _ _ _ inc _ nm _ _ htr hin hfeat hscale

/-- Witness for C8: on a concrete one-image batch with two resulting
bounding-box keys, every scale's stage input and the final output hold
exactly two estimates for the single image. -/
theorem C8_witness :
    (∀ t ∈ (processBatch cfg1 S0 none none none false [img0]).traj,
      t.map List.length = [2])
    ∧ ((processBatch cfg1 S0 none none none false [img0]).cur).map List.length
      = [2] := by
  have h := C8_estimate_count_invariant cfg1 S0 none none none false [img0]
    (fun _ _ _ _ => rfl) (fun _ _ _ _ => rfl) (fun _ => rfl) (fun _ _ => rfl)
    0 rfl
  have he : List.replicate
      ((processBatch cfg1 S0 none none none false [img0]).working.length)
      (keysMatching
        (((processBatch cfg1 S0 none none none false [img0]).working).headD
          default) (bbGroupName none)).length = [2] := by
    decide
  exact ⟨fun t ht => he ▸ h.1 t ht, he ▸ h.2⟩

lemma hasKey_iff_mem_groupLabels (i : Image) (k : String) :
    hasKey i k = true ↔ k ∈ groupLabels i := by
  simp only [hasKey, List.any_eq_true, groupLabels, List.mem_map]
  constructor
  · rintro ⟨p, hp, he⟩
    exact ⟨p, hp, by simpa using he⟩
  · rintro ⟨p, hp, he⟩
    exact ⟨p, hp, by simp [he]⟩

lemma perturbFold_iid (f : Shape → Shape → Shape) (group seedKey bbGroup : String)
    (js : List ℕ) : ∀ (i : Image) (ev0 : List Ev),
    ((js.foldl (perturbStepJ f group seedKey bbGroup) (i, ev0)).1).iid = i.iid := by
  induction js with
  | nil => intro i ev0; rfl
  | cons j t ih =>
    intro i ev0
    rw [List.foldl_cons, ih]
    exact setLm_iid _ _ _

lemma perturbFold_labels_mono (f : Shape → Shape → Shape)
    (group seedKey bbGroup : String) (js : List ℕ) : ∀ (i : Image) (ev0 : List Ev)
    (k : String), k ∈ groupLabels i →
    k ∈ groupLabels ((js.foldl (perturbStepJ f group seedKey bbGroup) (i, ev0)).1) := by
  induction js with
  | nil => intro i ev0 k hk; exact hk
  | cons j t ih =>
    intro i ev0 k hk
    rw [List.foldl_cons]
    exact ih _ _ k (groupLabels_setLm_mono _ _ _ _ hk)

lemma perturbFold_attach_iid (f : Shape → Shape → Shape)
    (group seedKey bbGroup : String) (js : List ℕ) :
    ∀ (i : Image) (ev0 : List Ev),
    ∀ e ∈ (js.foldl (perturbStepJ f group seedKey bbGroup) (i, ev0)).2,
      e ∈ ev0 ∨ (∃ a b, e = Ev.perturbCall a b) ∨ (∃ k, e = Ev.attach i.iid k) := by
  induction js with
  | nil => intro i ev0 e he; exact Or.inl he
  | cons j t ih =>
    intro i ev0 e he
    rw [List.foldl_cons] at he
    rcases ih _ _ e he with h | h | ⟨k, hk⟩
    · simp only [perturbStepJ, List.mem_append, List.mem_cons] at h
      rcases h with h | h | h | h
      · exact Or.inl h
      · exact Or.inr (Or.inl ⟨_, _, h⟩)
      · exact Or.inr (Or.inr ⟨_, h⟩)
      · simp at h
    · exact Or.inr (Or.inl h)
    · rw [setLm_iid] at hk
      exact Or.inr (Or.inr ⟨k, hk⟩)

lemma resolvePerturbations_working_mem {σ : Type} (f : Shape → Shape → Shape)
    (S : SDMState σ) (g bg : String) (keys : List String) (w : List Image) :
    ∀ i2 ∈ (resolvePerturbations f S g bg keys w).2.1,
      ∃ i ∈ w, i2.iid = i.iid ∧ ∀ k ∈ groupLabels i, k ∈ groupLabels i2 := by
  intro i2 hi2
  simp only [resolvePerturbations] at hi2
  split at hi2
  · simp only [List.map_map, List.mem_map, Function.comp] at hi2
    obtain ⟨i, hi, rfl⟩ := hi2
    refine ⟨i, hi, perturbFold_iid f g (keys.headD "") bg _ i [], ?_⟩
    intro k hk
    exact perturbFold_labels_mono f g (keys.headD "") bg _ i [] k hk
  · split at hi2 <;> exact ⟨i2, hi2, rfl, fun k hk => hk⟩

lemma resolvePerturbations_attach_iid {σ : Type} (f : Shape → Shape → Shape)
    (S : SDMState σ) (g bg : String) (keys : List String) (w : List Image) :
    ∀ e ∈ (resolvePerturbations f S g bg keys w).2.2, isAttachEv e = true →
      ∃ i ∈ w, attachIid e = i.iid := by
  intro e he ha
  simp only [resolvePerturbations] at he
  split at he
  · simp only [List.mem_flatten, List.mem_map] at he
    obtain ⟨l, ⟨q, ⟨i, hi, rfl⟩, rfl⟩, hel⟩ := he
    rcases perturbFold_attach_iid f g (keys.headD "") bg _ i [] e hel with
      h | ⟨a, b, rfl⟩ | ⟨k, rfl⟩
    · simp at h
    · simp [isAttachEv] at ha
    · exact ⟨i, hi, rfl⟩
  · split at he
    · simp only [List.mem_singleton] at he
      subst he
      simp [isAttachEv] at ha
    · simp at he

lemma gtBoxStep_iid (g : String) (b : List Image) :
    (gtBoxStep g b).1.map Image.iid = b.map Image.iid := by
  simp only [gtBoxStep, List.map_map]
  apply List.map_congr_left
  intro i _
  exact setLm_iid _ _ _

lemma gtBoxStep_trace_forms (g : String) (b : List Image) :
    ∀ e ∈ (gtBoxStep g b).2, ∃ i ∈ b, e = Ev.attach i.iid (gtBbNamespace ++ "0") := by
  intro e he
  simp only [gtBoxStep, List.mem_map] at he
  obtain ⟨i, hi, rfl⟩ := he
  exact ⟨i, hi, rfl⟩

lemma batchWorking1_iid {σ : Type} (cfg : SDMConfig σ) (S : SDMState σ)
    (g0 bb0 : Option String) (batch : List Image) :
    (batchWorking1 cfg S g0 bb0 batch).map Image.iid
      = (cfg.collab.rescaleImages batch (resolveGroup g0 batch)
          (resolvedRef cfg S (resolveGroup g0 batch) batch)).map Image.iid := by
  cases bb0 with
  | none => exact gtBoxStep_iid _ _
  | some g => rfl

/-- C10 (amended): the keyed landmark writes of a batch are applied to
the post-rescale working images, not the caller's objects: with no
bounding-box group supplied, every working image of the batch carries the
reserved ground-truth box key after bounding-box resolution, and every
landmark write of the batch names the identity of a post-rescale working
image.  Since rescaling produces fresh per-batch working data (spec §3
and §5), the caller's image objects receive none of these keys. -/
theorem C10_attachments_on_working {σ : Type} [Inhabited σ] (cfg : SDMConfig σ)
    (S : SDMState σ) (g0 : Option String) (bs : Option ℕ) (inc : Bool)
    (batch : List Image) :
    (∀ i ∈ (processBatch cfg S g0 none bs inc batch).working,
      hasKey i (gtBbNamespace ++ "0") = true)
    ∧ (∀ (bb0 : Option String),
        ∀ e ∈ (processBatch cfg S g0 bb0 bs inc batch).trace, isAttachEv e = true →
        attachIid e ∈ (cfg.collab.rescaleImages batch (resolveGroup g0 batch)
          (resolvedRef cfg S (resolveGroup g0 batch) batch)).map Image.iid) := by
  constructor
  · intro i hi
    simp only [processBatch] at hi
    obtain ⟨i0, hi0, _, hlab⟩ := resolvePerturbations_working_mem
      cfg.perturbFromBoundingBox _ _ _ _ _ i hi
    have hkey : (gtBbNamespace ++ "0") ∈ groupLabels i0 := by
      simp only [batchWorking1, resolveBBGroup, gtBoxStep, List.mem_map] at hi0
      obtain ⟨i1, _, rfl⟩ := hi0
      exact mem_groupLabels_setLm_self _ _ _
    exact (hasKey_iff_mem_groupLabels i _).mpr (hlab _ hkey)
  · intro bb0 e he ha
    simp only [processBatch, List.mem_append] at he
    rcases he with ((h | h) | h) | h
    · rcases refTrace_mem _ _ e h with rfl | rfl <;> simp [isAttachEv] at ha
    · cases bb0 with
      | none =>
        obtain ⟨i, hi, rfl⟩ := gtBoxStep_trace_forms _ _ e h
        exact List.mem_map_of_mem Image.iid hi
      | some g => simp [resolveBBGroup] at h
    · obtain ⟨i, hi, hii⟩ := resolvePerturbations_attach_iid
        cfg.perturbFromBoundingBox _ _ _ _ _ e h ha
      rw [hii]
      rw [← batchWorking1_iid cfg S g0 bb0 batch]
      exact List.mem_map_of_mem Image.iid hi
    · rcases scaleLoopFrom_trace_forms _ _ _ _ _ _ _ _ _ _ _ e h with
        ⟨n, rfl⟩ | ⟨n, rfl⟩ | ⟨n, rfl⟩ | ⟨s, rfl⟩ | ⟨n, r, rfl⟩ <;>
        simp [isAttachEv] at ha

/-- Counterexample to C10 as stated: on a concrete run whose caller image
has identity 0, rescaling (modelled from the spec as producing fresh
per-batch working images) yields working identity 100, every landmark
write of the run names identity 100, and the reserved ground-truth key is
attached to the working image — the caller's image object is never
written, so no keyed landmark set persists on it. -/
theorem C10_counterexample :
    img0.iid = 0
    ∧ ((((processBatch cfg1 S0 none none none false [img0]).trace).filter
        isAttachEv).all (fun e => attachIid e != 0) = true)
    ∧ (Ev.attach 100 (gtBbNamespace ++ "0")
        ∈ (processBatch cfg1 S0 none none none false [img0]).trace)
    ∧ ((processBatch cfg1 S0 none none none false [img0]).working.map Image.iid
        = [100]) := by
  refine ⟨rfl, by decide, by decide, by decide⟩

/-- Witness for the amended C10: on the concrete run, the working image
carries the reserved key and the recorded write's identity is among the
post-rescale identities. -/
theorem C10_witness :
    (hasKey (((processBatch cfg1 S0 none none none false [img0]).working).headD
      default) (gtBbNamespace ++ "0") = true)
    ∧ ((100 : ℕ) ∈ (cfg1.collab.rescaleImages [img0] (resolveGroup none [img0])
        (resolvedRef cfg1 S0 (resolveGroup none [img0]) [img0])).map Image.iid) := by
  have h := C10_attachments_on_working cfg1 S0 none none false [img0]
  have hne : (processBatch cfg1 S0 none none none false [img0]).working ≠ [] := by
    decide
  have hmem : ((processBatch cfg1 S0 none none none false [img0]).working).headD
      default ∈ (processBatch cfg1 S0 none none none false [img0]).working := by
    rcases hw : (processBatch cfg1 S0 none none none false [img0]).working with
      _ | ⟨a, t⟩
    · exact absurd hw hne
    · simp
  constructor
  · exact h.1 _ hmem
  · exact h.2 none (Ev.attach 100 (gtBbNamespace ++ "0")) (by decide) rfl
